import Mathlib

/-!
Shallow embedding of the semantic-diff core (`src/core/diffs.py`).

The Python module compares two parsed configuration trees (scalars,
dicts, lists).  Its public operations are `_create_similarity_matrix`,
`_sort_similarity_list`, `_sort_similarity_matrix`, `list_diff` and
`dict_diff`.  Python dictionaries are modelled as association lists in
insertion order; Python sets are modelled as duplicate-free lists in
insertion order (a fixed determinization of the unspecified iteration
order of CPython sets); a Python `IndexError` is modelled as the
`DiffError.indexError` value of an `Except` result.  The mutual
recursion of `list_diff` and `dict_diff` is embedded with an explicit
fuel parameter (`diffF`); the wrappers `list_diff` and `dict_diff`
supply fuel that is sufficient for the recursion, which descends into
strictly smaller subtrees.
-/

/-- Scalar ("simple") values of the tree model: the null sentinel, integers
and strings, compared by equality as in Python. -/
inductive Prim where
  | pnone
  | pint (n : Int)
  | pstr (s : String)
deriving DecidableEq, Repr

/-- A parsed configuration value: a scalar, a dictionary (association list
in insertion order, keys unique) or a list. -/
inductive Val where
  | prim (p : Prim)
  | vdict (entries : List (Prim × Val))
  | vlist (elems : List Val)
deriving Repr

mutual
/-- Size of one value, used to compute sufficient fuel for the differs. -/
def vsize : Val → Nat
  | .prim _ => 1
  | .vdict d => 1 + psize d
  | .vlist l => 1 + lsize l
/-- Size of dictionary entries. -/
def psize : List (Prim × Val) → Nat
  | [] => 0
  | (_, v) :: t => 1 + vsize v + psize t
/-- Size of list elements. -/
def lsize : List Val → Nat
  | [] => 0
  | v :: t => 1 + vsize v + lsize t
end

/-- Add an element to a Python set, modelled as a duplicate-free list in
insertion order; adding a present element is a no-op. -/
def insertSet {α : Type} [DecidableEq α] (l : List α) (x : α) : List α :=
  if x ∈ l then l else l ++ [x]

/-- First-match association-list lookup: `d.get(k)` / `d[k]` on a Python
dict whose insertion order is the list order. -/
def lookupKey : List (Prim × Val) → Prim → Option Val
  | [], _ => none
  | (k, v) :: t, q => if k = q then some v else lookupKey t q

/-- Lookup in a bucket map, defaulting to the empty index list: Python
`m.get(key, [])`. -/
def bucketGet {κ : Type} [DecidableEq κ] : List (κ × List Nat) → κ → List Nat
  | [], _ => []
  | (k, is) :: t, q => if k = q then is else bucketGet t q

/-- Append an index to a bucket: Python `m[key] = m.get(key, []) + [i]`
(the key keeps its position if present, otherwise is appended). -/
def bucketAdd {κ : Type} [DecidableEq κ] : List (κ × List Nat) → κ → Nat → List (κ × List Nat)
  | [], q, i => [(q, [i])]
  | (k, is) :: t, q, i =>
    if k = q then (k, is ++ [i]) :: t else (k, is) :: bucketAdd t q i

/-- The four lookup structures built from `l2` in step 2 of
`_create_similarity_matrix`: `simple_values`, `key_value_pairs`,
`complex_keys` and `list_lengths`. -/
structure Buckets where
  simpleValues : List (Prim × List Nat)
  keyValuePairs : List ((Prim × Prim) × List Nat)
  complexKeys : List (Prim × List Nat)
  listLengths : List (Nat × List Nat)
deriving Repr

/-- Initial empty buckets. -/
def emptyBuckets : Buckets := ⟨[], [], [], []⟩

/-- Step-2 sub-routine parsing one dictionary element of `l2` at index `i`:
keys with complex (dict or list) values go to `complex_keys`, keys with
simple values go to `key_value_pairs`. -/
def parseDict (b : Buckets) (i : Nat) : List (Prim × Val) → Buckets
  | [] => b
  | (k, v) :: t =>
    match v with
    | .prim p => parseDict { b with keyValuePairs := bucketAdd b.keyValuePairs (k, p) i } i t
    | _ => parseDict { b with complexKeys := bucketAdd b.complexKeys k i } i t

/-- Step 2 of `_create_similarity_matrix` for one element of `l2`. -/
def parseElem (b : Buckets) (i : Nat) : Val → Buckets
  | .vdict d => parseDict b i d
  | .vlist s => { b with listLengths := bucketAdd b.listLengths s.length i }
  | .prim p => { b with simpleValues := bucketAdd b.simpleValues p i }

/-- Step 2 loop of `_create_similarity_matrix` over `l2` with the running
index. -/
def buildBucketsGo (b : Buckets) (i : Nat) : List Val → Buckets
  | [] => b
  | x :: t => buildBucketsGo (parseElem b i x) (i + 1) t

/-- All buckets parsed from `l2`. -/
def buildBuckets (l2 : List Val) : Buckets := buildBucketsGo emptyBuckets 0 l2

/-- For one element of `l1`, the sequence of `l2`-index increments that
step 3 of `_create_similarity_matrix` performs, in program order. -/
def dictTargets (b : Buckets) : List (Prim × Val) → List Nat
  | [] => []
  | (k, v) :: t =>
    (match v with
     | .prim p => bucketGet b.keyValuePairs (k, p)
     | _ => bucketGet b.complexKeys k) ++ dictTargets b t

/-- Step-3 increment targets for one `l1` element of any shape. -/
def targets (b : Buckets) : Val → List Nat
  | .vdict d => dictTargets b d
  | .vlist s => bucketGet b.listLengths s.length
  | .prim p => bucketGet b.simpleValues p

/-- The score matrix, a list of rows of natural-number scores. -/
abbrev ScoreMatrix := List (List Nat)

/-- Failure modes of the embedded code: a Python `IndexError`, or fuel
exhaustion of the embedding (never reached with the wrappers' fuel). -/
inductive DiffError where
  | indexError
  | outOfFuel
deriving DecidableEq, Repr

/-- Matrix entry read with out-of-bounds defaulting to 0 (used only to
state theorems; the code itself errors on out-of-bounds access). -/
def entryD (m : ScoreMatrix) (i j : Nat) : Nat := (m.getD i []).getD j 0

/-- One `similarity_matrix[i][j] += 1` with Python list-index semantics:
an out-of-range index raises `IndexError`. -/
def bump (m : ScoreMatrix) (i j : Nat) : Except DiffError ScoreMatrix :=
  if i < m.length then
    if j < (m.getD i []).length then
      .ok (m.set i ((m.getD i []).set j ((m.getD i []).getD j 0 + 1)))
    else .error .indexError
  else .error .indexError

/-- Sequential increments for one `l1` row. -/
def bumps (m : ScoreMatrix) (i : Nat) : List Nat → Except DiffError ScoreMatrix
  | [] => .ok m
  | j :: t =>
    match bump m i j with
    | .ok m2 => bumps m2 i t
    | .error e => .error e

/-- Step 3 loop of `_create_similarity_matrix` over `l1` with the running
index. -/
def scoreRows (b : Buckets) (m : ScoreMatrix) (i : Nat) : List Val → Except DiffError ScoreMatrix
  | [] => .ok m
  | x :: t =>
    match bumps m i (targets b x) with
    | .ok m2 => scoreRows b m2 (i + 1) t
    | .error e => .error e

/-- Embedding of `_create_similarity_matrix(l1, l2)`.  Note: the source
allocates `[[0] * len(l1) for _ in range(len(l2))]`, i.e. `len(l2)` rows
of `len(l1)` zeros, and then writes `similarity_matrix[i][l2_index]`
with `i` an `l1` index and `l2_index` an `l2` index. -/
def create_similarity_matrix (l1 l2 : List Val) : Except DiffError ScoreMatrix :=
  scoreRows (buildBuckets l2) (List.replicate l2.length (List.replicate l1.length 0)) 0 l1

/-- One entry of the flattened similarity list: `(score, row, column)`. -/
abbrev SimEntry := Nat × Nat × Nat

/-- Entries of one matrix row `r`, columns starting at `c`. -/
def rowEntries (r c : Nat) : List Nat → List SimEntry
  | [] => []
  | s :: t => (s, r, c) :: rowEntries r (c + 1) t

/-- Row-major flattening loop of `_sort_similarity_matrix`. -/
def simEntriesGo (r : Nat) : ScoreMatrix → List SimEntry
  | [] => []
  | row :: rest => rowEntries r 0 row ++ simEntriesGo (r + 1) rest

/-- Row-major flattening of the score matrix into `(score, r, c)` entries. -/
def simEntries (sm : ScoreMatrix) : List SimEntry := simEntriesGo 0 sm

/-- The merge loop of `_sort_similarity_list`: while either half is
non-empty, pop from the first half only when its head score is strictly
greater, otherwise pop from the second half.  Fuel counts loop
iterations; `mergeLists` supplies the exact number. -/
def mergeF : Nat → List SimEntry → List SimEntry → List SimEntry
  | 0, _, _ => []
  | _ + 1, [], [] => []
  | f + 1, [], b :: t2 => b :: mergeF f [] t2
  | f + 1, a :: t1, [] => a :: mergeF f t1 []
  | f + 1, a :: t1, b :: t2 =>
    if b.1 < a.1 then a :: mergeF f t1 (b :: t2) else b :: mergeF f (a :: t1) t2

/-- Merge of the two sorted halves. -/
def mergeLists (l1 l2 : List SimEntry) : List SimEntry :=
  mergeF (l1.length + l2.length) l1 l2

/-- Recursive merge sort of `_sort_similarity_list`, splitting at
`int(len(sl)/2)`.  Fuel bounds the recursion depth; `sort_similarity_list`
supplies the list length, which is sufficient. -/
def sortF : Nat → List SimEntry → List SimEntry
  | 0, sl => sl
  | f + 1, sl =>
    if sl.length ≤ 1 then sl
    else
      mergeLists (sortF f (sl.take (sl.length / 2))) (sortF f (sl.drop (sl.length / 2)))

/-- Embedding of `_sort_similarity_list(sl)`: descending merge sort by
score. -/
def sort_similarity_list (sl : List SimEntry) : List SimEntry := sortF sl.length sl

/-- Embedding of `_sort_similarity_matrix(sm)`: flatten row-major, then
merge sort descending by score. -/
def sort_similarity_matrix (sm : ScoreMatrix) : List SimEntry :=
  sort_similarity_list (simEntries sm)

/-- One segment of a mismatch path: a dictionary key, or a pair of
optional list indices `(l1 index, l2 index)`. -/
inductive PathSeg where
  | key (k : Prim)
  | idx (i j : Option Nat)
deriving DecidableEq, Repr

/-- A mismatch path, root first. -/
abbrev MPath := List PathSeg

/-- Python `==` on values, with fuel for the recursion into nested
structures (dict comparison is order-insensitive, list comparison is
element-wise).  The differs only ever compare values of which at most one
is complex, so any positive fuel is sufficient at those call sites. -/
def pyEqF : Nat → Val → Val → Bool
  | 0, _, _ => false
  | f + 1, x, y =>
    match x, y with
    | .prim a, .prim b => a == b
    | .vdict a, .vdict b =>
      a.length == b.length && a.all (fun kv =>
        match lookupKey b kv.1 with
        | some w => pyEqF f kv.2 w
        | none => false)
    | .vlist a, .vlist b =>
      a.length == b.length && (a.zip b).all (fun vw => pyEqF f vw.1 vw.2)
    | _, _ => false

/-- Step-3 state of `list_diff`: the seen/mismatch index sets, the
mismatch set and the recursion queue, all in insertion order. -/
structure MatchState where
  seenL1 : List Nat
  mismatchL1 : List Nat
  seenL2 : List Nat
  mismatchL2 : List Nat
  mismatchSet : List (Option Nat × Option Nat)
  toRecurse : List (Nat × Nat)
deriving Repr

/-- Initial empty step-3 state. -/
def initState : MatchState := ⟨[], [], [], [], [], []⟩

/-- Case 1 body of the step-3 loop after both indices were added to the
seen sets: queue the pair when both elements are dicts or both are lists.
Python indexes `l1[i]` (and, when `l1[i]` is complex, `l2[j]`), so an
out-of-range index raises `IndexError`; scalar `l1[i]` short-circuits and
never touches `l2[j]`. -/
def markMatch (l1 l2 : List Val) (st : MatchState) (i j : Nat) : Except DiffError MatchState :=
  if i < l1.length then
    match l1.getD i (.prim .pnone) with
    | .vdict _ =>
      if j < l2.length then
        match l2.getD j (.prim .pnone) with
        | .vdict _ => .ok { st with toRecurse := st.toRecurse ++ [(i, j)] }
        | _ => .ok st
      else .error .indexError
    | .vlist _ =>
      if j < l2.length then
        match l2.getD j (.prim .pnone) with
        | .vlist _ => .ok { st with toRecurse := st.toRecurse ++ [(i, j)] }
        | _ => .ok st
      else .error .indexError
    | .prim _ => .ok st
  else .error .indexError

/-- One iteration of the step-3 loop of `list_diff` on a similarity entry
`(score, i, j)`: positive score with both indices unseen marks a match
(and possibly queues recursion); zero score marks each still-unseen side
as a one-sided mismatch; otherwise no effect. -/
def stepEntry (l1 l2 : List Val) (st : MatchState) (e : SimEntry) : Except DiffError MatchState :=
  if 0 < e.1 ∧ ¬(e.2.1 ∈ st.seenL1 ∨ e.2.2 ∈ st.seenL2) then
    markMatch l1 l2
      { st with seenL1 := insertSet st.seenL1 e.2.1, seenL2 := insertSet st.seenL2 e.2.2 }
      e.2.1 e.2.2
  else if e.1 = 0 then
    .ok (
      let st1 :=
        if e.2.1 ∈ st.seenL1 then st
        else { st with mismatchSet := insertSet st.mismatchSet (some e.2.1, none),
                       mismatchL1 := insertSet st.mismatchL1 e.2.1 }
      if e.2.2 ∈ st1.seenL2 then st1
      else { st1 with mismatchSet := insertSet st1.mismatchSet (none, some e.2.2),
                      mismatchL2 := insertSet st1.mismatchL2 e.2.2 })
  else .ok st

/-- Step-3 loop of `list_diff` over the sorted similarity list. -/
def stepLoop (l1 l2 : List Val) (st : MatchState) : List SimEntry → Except DiffError MatchState
  | [] => .ok st
  | e :: rest =>
    match stepEntry l1 l2 st e with
    | .ok st2 => stepLoop l1 l2 st2 rest
    | .error err => .error err

/-- Step-4 straggler loop of `list_diff`: every index of the given range
that is neither seen nor already mismatched is added as a one-sided
mismatch. -/
def addStragglers (seen mism : List Nat) (mk : Nat → Option Nat × Option Nat)
    (ms : List (Option Nat × Option Nat)) : List Nat → List (Option Nat × Option Nat)
  | [] => ms
  | i :: t =>
    addStragglers seen mism mk
      (if i ∈ seen ∨ i ∈ mism then ms else insertSet ms (mk i)) t

/-- The three accumulators of the key loop of `dict_diff`:
`dict_keys_to_recurse`, `list_keys_to_recurse` and `return_values`. -/
structure KeyTriage where
  dictKeys : List Prim
  listKeys : List Prim
  leafPaths : List MPath
deriving Repr

/-- Key loop of `dict_diff` over the union of keys: both values dicts
go to `dict_keys_to_recurse`; both lists to `list_keys_to_recurse`;
otherwise the two values (absent keys defaulting to the null sentinel)
are compared for equality and, when unequal, the single-segment path
`[Key k]` is emitted. -/
def triageKeys (fuel : Nat) (d1 d2 : List (Prim × Val)) (acc : KeyTriage) :
    List Prim → KeyTriage
  | [] => acc
  | k :: t =>
    triageKeys fuel d1 d2
      (match (lookupKey d1 k).getD (.prim .pnone), (lookupKey d2 k).getD (.prim .pnone) with
       | .vdict _, .vdict _ => { acc with dictKeys := acc.dictKeys ++ [k] }
       | .vlist _, .vlist _ => { acc with listKeys := acc.listKeys ++ [k] }
       | v1, v2 =>
         if pyEqF fuel v1 v2 then acc
         else { acc with leafPaths := acc.leafPaths ++ [[PathSeg.key k]] }) t

/-- Deduplication keeping first occurrences, determinizing the iteration
order of the Python key-set union. -/
def dedupKeysGo (seen : List Prim) : List Prim → List Prim
  | [] => []
  | k :: t => if k ∈ seen then dedupKeysGo seen t else k :: dedupKeysGo (k :: seen) t

/-- Union of the key sets of two dicts: `set(d1.keys()).union(set(d2.keys()))`,
determinized to first-occurrence order. -/
def unionKeys (d1 d2 : List (Prim × Val)) : List Prim :=
  dedupKeysGo [] (d1.map (fun kv => kv.1) ++ d2.map (fun kv => kv.1))

/-- Dictionary entries of a looked-up value; the differs only apply this
to values already checked to be dicts. -/
def asDictEntries : Option Val → List (Prim × Val)
  | some (.vdict d) => d
  | _ => []

/-- List elements of a looked-up value; the differs only apply this to
values already checked to be lists. -/
def asListElems : Option Val → List Val
  | some (.vlist l) => l
  | _ => []

/-- A call of the mutually recursive differ machinery: a `list_diff`
body, a `dict_diff` body, the step-5 recursion loop of `list_diff` over
the queued index pairs, and the two recursion loops of `dict_diff` over
`dict_keys_to_recurse` (with the list keys still pending) and over
`list_keys_to_recurse`.  Each call carries the accumulated mismatch
paths and a flag recording whether the "to_recurse index types do not
match" diagnostic print was reached. -/
inductive Call where
  | clist (l1 l2 : List Val)
  | cdict (d1 d2 : List (Prim × Val))
  | cpairs (l1 l2 : List Val) (acc : List MPath × Bool) (pairs : List (Nat × Nat))
  | cdictKeys (d1 d2 : List (Prim × Val)) (acc : List MPath × Bool)
      (keys : List Prim) (pending : List Prim)
  | clistKeys (d1 d2 : List (Prim × Val)) (acc : List MPath × Bool) (keys : List Prim)

/-- Fuel-indexed embedding of the mutual recursion of `list_diff` and
`dict_diff`.  Each constructor of `Call` is one loop or body of the
source; every step consumes one unit of fuel, and the wrappers supply
fuel sufficient for the recursion into strictly smaller subtrees.  The
result carries the mismatch-path list and the diagnostic-print flag of
the unreachable mixed-shape branch of step 5 of `list_diff`. -/
def diffF : Nat → Call → Except DiffError (List MPath × Bool)
  | 0, _ => .error .outOfFuel
  | f + 1, .clist l1 l2 =>
    match create_similarity_matrix l1 l2 with
    | .error e => .error e
    | .ok sm =>
      match stepLoop l1 l2 initState (sort_similarity_matrix sm) with
      | .error e => .error e
      | .ok st =>
        diffF f (.cpairs l1 l2
          ((addStragglers st.seenL2 st.mismatchL2 (fun i => (none, some i))
              (addStragglers st.seenL1 st.mismatchL1 (fun i => (some i, none))
                st.mismatchSet (List.range l1.length))
              (List.range l2.length)).map (fun e => [PathSeg.idx e.1 e.2]), false)
          st.toRecurse)
  | f + 1, .cdict d1 d2 =>
    diffF f (.cdictKeys d1 d2
      ((triageKeys (f + 1) d1 d2 ⟨[], [], []⟩ (unionKeys d1 d2)).leafPaths, false)
      (triageKeys (f + 1) d1 d2 ⟨[], [], []⟩ (unionKeys d1 d2)).dictKeys
      (triageKeys (f + 1) d1 d2 ⟨[], [], []⟩ (unionKeys d1 d2)).listKeys)
  | _ + 1, .cpairs _ _ acc [] => .ok acc
  | f + 1, .cpairs l1 l2 acc ((i, j) :: rest) =>
    match l1.getD i (.prim .pnone), l2.getD j (.prim .pnone) with
    | .vdict m1, .vdict m2 =>
      match diffF f (.cdict m1 m2) with
      | .error e => .error e
      | .ok (ps, w) =>
        diffF f (.cpairs l1 l2
          (acc.1 ++ ps.map (fun p => PathSeg.idx (some i) (some j) :: p), acc.2 || w) rest)
    | .vlist s1, .vlist s2 =>
      match diffF f (.clist s1 s2) with
      | .error e => .error e
      | .ok (ps, w) =>
        diffF f (.cpairs l1 l2
          (acc.1 ++ ps.map (fun p => PathSeg.idx (some i) (some j) :: p), acc.2 || w) rest)
    | _, _ => diffF f (.cpairs l1 l2 (acc.1, true) rest)
  | f + 1, .cdictKeys d1 d2 acc [] pending => diffF f (.clistKeys d1 d2 acc pending)
  | f + 1, .cdictKeys d1 d2 acc (k :: rest) pending =>
    match diffF f (.cdict (asDictEntries (lookupKey d1 k)) (asDictEntries (lookupKey d2 k))) with
    | .error e => .error e
    | .ok (ps, w) =>
      diffF f (.cdictKeys d1 d2
        (acc.1 ++ ps.map (fun p => PathSeg.key k :: p), acc.2 || w) rest pending)
  | _ + 1, .clistKeys _ _ acc [] => .ok acc
  | f + 1, .clistKeys d1 d2 acc (k :: rest) =>
    match diffF f (.clist (asListElems (lookupKey d1 k)) (asListElems (lookupKey d2 k))) with
    | .error e => .error e
    | .ok (ps, w) =>
      diffF f (.clistKeys d1 d2
        (acc.1 ++ ps.map (fun p => PathSeg.key k :: p), acc.2 || w) rest)

/-- Embedding of `list_diff(l1, l2)`: the mismatch paths and the
diagnostic-print flag, or the error the source raises. -/
def list_diff (l1 l2 : List Val) : Except DiffError (List MPath × Bool) :=
  diffF (lsize l1 + lsize l2 + 3) (.clist l1 l2)

/-- Embedding of `dict_diff(d1, d2)`: the mismatch paths and the
diagnostic-print flag, or the error the source raises. -/
def dict_diff (d1 d2 : List (Prim × Val)) : Except DiffError (List MPath × Bool) :=
  diffF (psize d1 + psize d2 + 3) (.cdict d1 d2)


/-- Truth of "both elements are dicts or both are lists", the condition
under which step 3 of `list_diff` queues a pair for recursion. -/
def shapePaired : Val → Val → Bool
  | .vdict _, .vdict _ => true
  | .vlist _, .vlist _ => true
  | _, _ => false

/-- Truth of "the two values have the same shape" (scalar, mapping or
sequence). -/
def sameShape : Val → Val → Bool
  | .prim _, .prim _ => true
  | .vdict _, .vdict _ => true
  | .vlist _, .vlist _ => true
  | _, _ => false

/-- Number of times the `simple_values` bucket of `y` matches the scalar
`p`: one when `y` is the scalar `p`, zero otherwise. -/
def primOccs (y : Val) (p : Prim) : Nat :=
  match y with
  | .prim q => if q = p then 1 else 0
  | _ => 0

/-- Number of entries of `y` (when `y` is a dict) with key `k` and the
simple value `p`. -/
def kvOccs (y : Val) (k p : Prim) : Nat :=
  match y with
  | .vdict dy => dy.countP (fun e =>
      e.1 == k && (match e.2 with | .prim q => q == p | _ => false))
  | _ => 0

/-- Number of entries of `y` (when `y` is a dict) with key `k` and a
complex (dict or list) value. -/
def complexOccs (y : Val) (k : Prim) : Nat :=
  match y with
  | .vdict dy => dy.countP (fun e =>
      e.1 == k && (match e.2 with | .prim _ => false | _ => true))
  | _ => 0

/-- Number of times `y` is a list of length `n`: one or zero. -/
def lenOccs (y : Val) (n : Nat) : Nat :=
  match y with
  | .vlist s => if s.length = n then 1 else 0
  | _ => 0

/-- Score contributed against `y` by the entries of a dict element,
following the scoring rules of `_create_similarity_matrix`. -/
def dictPairScore (y : Val) : List (Prim × Val) → Nat
  | [] => 0
  | (k, v) :: t =>
    (match v with
     | .prim p => kvOccs y k p
     | _ => complexOccs y k) + dictPairScore y t

/-- The per-pair similarity score that `_create_similarity_matrix` is
meant to put at `score[i][j]`: shared simple key-value pairs plus shared
complex keys for two dicts, equal length for two lists, equality for two
scalars, zero across shapes. -/
def pairScore (x y : Val) : Nat :=
  match x with
  | .vdict d => dictPairScore y d
  | .vlist s => lenOccs y s.length
  | .prim p => primOccs y p

/-- Total contribution to position `j` made by the elements of `l`
numbered from `i0`, where element `x` at position `j` contributes
`occ x`.  Used to characterise both the buckets and the score matrix. -/
def occHits (occ : Val → Nat) : List Val → Nat → Nat → Nat
  | [], _, _ => 0
  | x :: t, i0, j => (if i0 = j then occ x else 0) + occHits occ t (i0 + 1) j

/-- Truth of "every queued pair points at two elements of the same
complex shape", the invariant of the `to_recurse` queue of `list_diff`. -/
def invToRec (l1 l2 : List Val) (q : List (Nat × Nat)) : Bool :=
  q.all (fun p => shapePaired (l1.getD p.1 (.prim .pnone)) (l2.getD p.2 (.prim .pnone)))

/-- C1: the claim says `_create_similarity_matrix` returns an n-by-m
matrix (n rows, one per element of `l1`) and is well-defined for all n
and m, in particular n > m.  The code allocates the matrix transposed,
`len(l2)` rows by `len(l1)` columns, contradicting its own docstring
`matrix[l1_index][l2_index]`: on `l1 = [1, 1]`, `l2 = [1]` (n = 2 > m = 1)
the write for the pair (1, 0) hits row 1 of a 1-row matrix and raises
`IndexError`; and on `l1 = [1]`, `l2 = [2, 3]` (n = 1, m = 2) it returns
a 2-by-1 matrix instead of a 1-by-2 one. -/
theorem c1_scorer_transposed_and_crashes :
    create_similarity_matrix [Val.prim (.pint 1), Val.prim (.pint 1)] [Val.prim (.pint 1)] =
      .error .indexError ∧
    create_similarity_matrix [Val.prim (.pint 1)] [Val.prim (.pint 2), Val.prim (.pint 3)] =
      .ok [[0], [0]] :=
  ⟨rfl, rfl⟩

/-- C2: the claim says diffing any tree against a structurally identical
copy yields an empty mismatch list, in particular for sequences
containing empty mappings.  The code violates this: an empty dict scores
0 against every element, including an identical empty dict, so
`list_diff([{}], [{}])` reports both sides as one-sided mismatches
instead of returning the empty list. -/
theorem c2_reflexivity_fails_on_empty_dict_element :
    list_diff [Val.vdict []] [Val.vdict []] =
      .ok ([[PathSeg.idx (some 0) none], [PathSeg.idx none (some 0)]], false) :=
  rfl

/-- C4: the claim says `list_diff([1,2,2], [2,1])` returns normally with
one of the two 2s reported as a one-sided left mismatch.  The code
instead raises `IndexError`: the similarity matrix is allocated with
`len(l2) = 2` rows, and scoring the third element of `l1` writes to
row 2. -/
theorem c4_list_diff_122_21_raises :
    list_diff [Val.prim (.pint 1), Val.prim (.pint 2), Val.prim (.pint 2)]
      [Val.prim (.pint 2), Val.prim (.pint 1)] = .error .indexError :=
  rfl

/-- C5 counterexample: on `dict_diff({'a': [1,2,3,5]}, {'a': [1,2,4,5]})`
the claim asserts exactly one mismatch path ending in an `IndexPair`
holding both index 2 (left) and index 2 (right).  The code returns two
paths, and no returned path contains the two-sided pair (2, 2). -/
theorem c5_counterexample_two_paths_not_one :
    (dict_diff
      [(Prim.pstr "a", Val.vlist [Val.prim (.pint 1), Val.prim (.pint 2),
        Val.prim (.pint 3), Val.prim (.pint 5)])]
      [(Prim.pstr "a", Val.vlist [Val.prim (.pint 1), Val.prim (.pint 2),
        Val.prim (.pint 4), Val.prim (.pint 5)])]).map
      (fun r => (r.1.length,
        r.1.contains [PathSeg.key (Prim.pstr "a"), PathSeg.idx (some 2) (some 2)])) =
    .ok (2, false) :=
  rfl

/-- C5 amended: the unmatched 3 (left index 2) and 4 (right index 2) are
each reported as their own one-sided mismatch below `Key('a')`: the
result is exactly the two paths `['a', (None, 2)]` and `['a', (2, None)]`
(in the insertion order of this embedding; CPython set iteration order
may permute the two). -/
theorem c5_amended_two_one_sided_paths :
    dict_diff
      [(Prim.pstr "a", Val.vlist [Val.prim (.pint 1), Val.prim (.pint 2),
        Val.prim (.pint 3), Val.prim (.pint 5)])]
      [(Prim.pstr "a", Val.vlist [Val.prim (.pint 1), Val.prim (.pint 2),
        Val.prim (.pint 4), Val.prim (.pint 5)])] =
    .ok ([[PathSeg.key (Prim.pstr "a"), PathSeg.idx none (some 2)],
          [PathSeg.key (Prim.pstr "a"), PathSeg.idx (some 2) none]], false) :=
  rfl

/-- C6 counterexample: the claim says a queued pair of mismatched shapes
is surfaced immediately as an error condition and never skipped with
best-effort continuation to a normal return.  Running the step-5
recursion loop of `list_diff` on such a pair shows the opposite: the
code prints a diagnostic (the Boolean flag of the result), drops the
pair, and returns normally. -/
theorem c6_counterexample_mixed_pair_returns_normally :
    diffF 5 (.cpairs [Val.vdict []] [Val.vlist []] ([], false) [(0, 0)]) =
      .ok ([], true) :=
  rfl

/-- C6 amended: when the step-5 recursion loop of `list_diff` reaches a
queued pair whose two elements do not have matching complex shapes, it
does not raise any error: it records the diagnostic print (the Boolean
flag), contributes no mismatch path for the pair, and continues with the
remaining queue to a normal return.  (By C10 no such pair is ever queued
by `list_diff` itself, so the branch is unreachable in real runs.) -/
theorem c6_amended_mixed_pair_prints_and_continues
    (f : Nat) (l1 l2 : List Val) (ps : List MPath) (w : Bool) (i j : Nat)
    (rest : List (Nat × Nat))
    (h : shapePaired (l1.getD i (.prim .pnone)) (l2.getD j (.prim .pnone)) = false) :
    diffF (f + 1) (.cpairs l1 l2 (ps, w) ((i, j) :: rest)) =
      diffF f (.cpairs l1 l2 (ps, true) rest) := by
  rcases hx : l1.getD i (.prim .pnone) with p | d | l <;>
    rcases hy : l2.getD j (.prim .pnone) with q | e | m <;>
    simp_all [diffF, shapePaired]

/-- Witness for the C6 amended theorem at the concrete forged queue
`[(0, 0)]` over `l1 = [{}]`, `l2 = [[]]`. -/
theorem c6_amended_witness :
    shapePaired ((([Val.vdict []] : List Val)).getD 0 (.prim .pnone))
        (([Val.vlist []] : List Val).getD 0 (.prim .pnone)) = false ∧
    diffF 5 (.cpairs [Val.vdict []] [Val.vlist []] ([], false) [(0, 0)]) =
      diffF 4 (.cpairs [Val.vdict []] [Val.vlist []] ([], true) []) :=
  ⟨rfl, c6_amended_mixed_pair_prints_and_continues 4 [Val.vdict []] [Val.vlist []]
    [] false 0 0 [] rfl⟩

theorem lookupKey_cons_ne (k q : Prim) (v : Val) (d : List (Prim × Val)) (h : k ≠ q) :
    lookupKey ((k, v) :: d) q = lookupKey d q := by
  simp [lookupKey, h]

theorem dedupKeysGo_congr (l : List Prim) : ∀ seen seen' : List Prim,
    (∀ x, x ∈ seen ↔ x ∈ seen') → dedupKeysGo seen l = dedupKeysGo seen' l := by
  induction l with
  | nil => intro seen seen' h; rfl
  | cons a t ih =>
    intro seen seen' h
    by_cases ha : a ∈ seen
    · simp [dedupKeysGo, ha, (h a).mp ha, ih seen seen' h]
    · have ha' : a ∉ seen' := fun hc => ha ((h a).mpr hc)
      simp only [dedupKeysGo, ha, ha', if_neg]
      have : ∀ x, x ∈ a :: seen ↔ x ∈ a :: seen' := by
        intro x; simp [h x]
      simp [ih (a :: seen) (a :: seen') this]

theorem filter_bne_self (k : Prim) (l : List Prim) :
    (l.filter (fun y => !(y == k))).filter (fun y => !(y == k)) =
      l.filter (fun y => !(y == k)) := by
  rw [List.filter_filter]
  congr 1
  funext y
  by_cases h : y = k <;> simp [h]

theorem dedupKeysGo_extra (k : Prim) (l : List Prim) : ∀ seen : List Prim,
    dedupKeysGo (k :: seen) l = (dedupKeysGo seen l).filter (fun y => !(y == k)) := by
  induction l with
  | nil => intro seen; rfl
  | cons a t ih =>
    intro seen
    by_cases hak : a = k
    · subst hak
      by_cases ha : a ∈ seen
      · simp [dedupKeysGo, ha, ih seen]
      · simp [dedupKeysGo, ha, List.filter_cons, ih seen, filter_bne_self a t]
    · by_cases ha : a ∈ seen
      · simp [dedupKeysGo, ha, hak, ih seen]
      · have hswap : dedupKeysGo (a :: k :: seen) t = dedupKeysGo (k :: a :: seen) t := by
          refine dedupKeysGo_congr t (a :: k :: seen) (k :: a :: seen) ?_
          intro x
          constructor <;> intro hx <;> simp at hx <;>
            rcases hx with h | h | h <;> simp [h]
        simp [dedupKeysGo, ha, hak, List.filter_cons, hswap, ih (a :: seen)]

theorem dedupKeysGo_filter (k : Prim) (l : List Prim) : ∀ seen : List Prim,
    dedupKeysGo seen (l.filter (fun y => !(y == k))) =
      (dedupKeysGo seen l).filter (fun y => !(y == k)) := by
  induction l with
  | nil => intro seen; rfl
  | cons a t ih =>
    intro seen
    by_cases hak : a = k
    · subst hak
      by_cases ha : a ∈ seen
      · simp [dedupKeysGo, List.filter_cons, ha, ih seen]
      · simp [dedupKeysGo, List.filter_cons, ha, ih seen,
          dedupKeysGo_extra a t seen, filter_bne_self a t]
    · by_cases ha : a ∈ seen
      · simp [dedupKeysGo, List.filter_cons, ha, hak, ih seen]
      · simp [dedupKeysGo, List.filter_cons, ha, hak, ih (a :: seen)]

theorem triageKeys_congr (fuel : Nat) (d1 d1' d2 d2' : List (Prim × Val)) (ks : List Prim)
    (h1 : ∀ x ∈ ks, lookupKey d1' x = lookupKey d1 x)
    (h2 : ∀ x ∈ ks, lookupKey d2' x = lookupKey d2 x) :
    ∀ acc, triageKeys fuel d1' d2' acc ks = triageKeys fuel d1 d2 acc ks := by
  induction ks with
  | nil => intro acc; rfl
  | cons a t ih =>
    intro acc
    have ha1 : lookupKey d1' a = lookupKey d1 a := h1 a (by simp)
    have ha2 : lookupKey d2' a = lookupKey d2 a := h2 a (by simp)
    simp only [triageKeys, ha1, ha2]
    exact ih (fun x hx => h1 x (by simp [hx])) (fun x hx => h2 x (by simp [hx])) _

theorem triageKeys_skip_noop (f : Nat) (d1 d2 : List (Prim × Val)) (k : Prim)
    (h1 : (lookupKey d1 k).getD (.prim .pnone) = .prim .pnone)
    (h2 : (lookupKey d2 k).getD (.prim .pnone) = .prim .pnone) (ks : List Prim) :
    ∀ acc, triageKeys (f + 1) d1 d2 acc (ks.filter (fun y => !(y == k))) =
      triageKeys (f + 1) d1 d2 acc ks := by
  induction ks with
  | nil => intro acc; rfl
  | cons a t ih =>
    intro acc
    by_cases hak : a = k
    · subst hak
      have hstep : triageKeys (f + 1) d1 d2 acc (a :: t) = triageKeys (f + 1) d1 d2 acc t := by
        simp [triageKeys, h1, h2, pyEqF]
      simp [List.filter_cons, hstep, ih]
    · simp only [List.filter_cons]
      have hkeep : (!(a == k)) = true := by simp [hak]
      rw [hkeep]
      simp only [if_pos, triageKeys]
      exact ih _

theorem triageKeys_noop_not_mem (f : Nat) (d1 d2 : List (Prim × Val)) (k : Prim)
    (h1 : (lookupKey d1 k).getD (.prim .pnone) = .prim .pnone)
    (h2 : (lookupKey d2 k).getD (.prim .pnone) = .prim .pnone) (ks : List Prim) :
    ∀ acc : KeyTriage, ¬ k ∈ acc.dictKeys → ¬ k ∈ acc.listKeys →
      ¬ k ∈ (triageKeys (f + 1) d1 d2 acc ks).dictKeys ∧
      ¬ k ∈ (triageKeys (f + 1) d1 d2 acc ks).listKeys := by
  induction ks with
  | nil => intro acc hd hl; exact ⟨hd, hl⟩
  | cons a t ih =>
    intro acc hd hl
    by_cases hak : a = k
    · subst hak
      have hstep : triageKeys (f + 1) d1 d2 acc (a :: t) = triageKeys (f + 1) d1 d2 acc t := by
        simp [triageKeys, h1, h2, pyEqF]
      rw [hstep]
      exact ih acc hd hl
    · simp only [triageKeys]
      rcases hx : (lookupKey d1 a).getD (.prim .pnone) with p | d | l <;>
      rcases hy : (lookupKey d2 a).getD (.prim .pnone) with q | e | m <;>
      · first
        | exact ih _ (by simpa using hd) (by simpa using hl)
        | exact ih _ (by simp [hd, Ne.symm hak]) (by simpa using hl)
        | exact ih _ (by simpa using hd) (by simp [hl, Ne.symm hak])
        | (by_cases heq : pyEqF (f + 1) (Val.prim p) (Val.prim q) <;>
            simp only [heq, if_pos, if_neg] <;>
            exact ih _ (by simpa using hd) (by simpa using hl))

theorem diffF_keysCongr : ∀ f : Nat,
    (∀ d1 d1' d2 d2' : List (Prim × Val), ∀ acc ks pend,
      (∀ x, x ∈ ks ∨ x ∈ pend → lookupKey d1' x = lookupKey d1 x) →
      (∀ x, x ∈ ks ∨ x ∈ pend → lookupKey d2' x = lookupKey d2 x) →
      diffF f (.cdictKeys d1' d2' acc ks pend) = diffF f (.cdictKeys d1 d2 acc ks pend)) ∧
    (∀ d1 d1' d2 d2' : List (Prim × Val), ∀ acc ks,
      (∀ x ∈ ks, lookupKey d1' x = lookupKey d1 x) →
      (∀ x ∈ ks, lookupKey d2' x = lookupKey d2 x) →
      diffF f (.clistKeys d1' d2' acc ks) = diffF f (.clistKeys d1 d2 acc ks)) := by
  intro f
  induction f with
  | zero => exact ⟨fun _ _ _ _ _ _ _ _ _ => rfl, fun _ _ _ _ _ _ _ _ => rfl⟩
  | succ f ih =>
    constructor
    · intro d1 d1' d2 d2' acc ks pend h1 h2
      cases ks with
      | nil =>
        simp only [diffF]
        exact ih.2 d1 d1' d2 d2' acc pend
          (fun x hx => h1 x (Or.inr hx)) (fun x hx => h2 x (Or.inr hx))
      | cons a t =>
        simp only [diffF]
        rw [h1 a (Or.inl (by simp)), h2 a (Or.inl (by simp))]
        cases hres : diffF f (.cdict (asDictEntries (lookupKey d1 a))
            (asDictEntries (lookupKey d2 a))) with
        | error e => rfl
        | ok pw =>
          cases pw with
          | mk ps w =>
            exact ih.1 d1 d1' d2 d2' _ t pend
              (fun x hx => h1 x (by rcases hx with hx | hx; exact Or.inl (by simp [hx]); exact Or.inr hx))
              (fun x hx => h2 x (by rcases hx with hx | hx; exact Or.inl (by simp [hx]); exact Or.inr hx))
    · intro d1 d1' d2 d2' acc ks h1 h2
      cases ks with
      | nil => rfl
      | cons a t =>
        simp only [diffF]
        rw [h1 a (by simp), h2 a (by simp)]
        cases hres : diffF f (.clist (asListElems (lookupKey d1 a))
            (asListElems (lookupKey d2 a))) with
        | error e => rfl
        | ok pw =>
          cases pw with
          | mk ps w =>
            exact ih.2 d1 d1' d2 d2' _ t
              (fun x hx => h1 x (by simp [hx])) (fun x hx => h2 x (by simp [hx]))

theorem filter_unionKeys_left (k : Prim) (v : Val) (d1 d2 : List (Prim × Val)) :
    (unionKeys ((k, v) :: d1) d2).filter (fun y => !(y == k)) =
      (unionKeys d1 d2).filter (fun y => !(y == k)) := by
  simp only [unionKeys, List.map_cons, List.cons_append]
  rw [← dedupKeysGo_filter, ← dedupKeysGo_filter, List.filter_cons]
  simp

theorem filter_unionKeys_right (k : Prim) (v : Val) (d1 d2 : List (Prim × Val)) :
    (unionKeys d1 ((k, v) :: d2)).filter (fun y => !(y == k)) =
      (unionKeys d1 d2).filter (fun y => !(y == k)) := by
  simp only [unionKeys, List.map_cons]
  rw [← dedupKeysGo_filter, ← dedupKeysGo_filter, List.filter_append, List.filter_append,
    List.filter_cons]
  simp

theorem pyEqF_null_null (f : Nat) : pyEqF (f + 1) (.prim .pnone) (.prim .pnone) = true := by
  simp [pyEqF]

/-- C7: in `dict_diff` an absent key is treated exactly as a key mapping
to the null sentinel.  Inserting `(k, None)` into either dict (for a key
`k` it did not contain, the other side mapping `k` to null or lacking it)
leaves the result of the differ unchanged at every fuel, and in
particular `dict_diff({}, {k: None})` returns no mismatch. -/
theorem c7_absent_equals_null (f : Nat) (k : Prim) (d1 d2 : List (Prim × Val))
    (h1 : lookupKey d1 k = none)
    (h2 : lookupKey d2 k = none ∨ lookupKey d2 k = some (Val.prim .pnone)) :
    diffF f (.cdict ((k, Val.prim .pnone) :: d1) d2) = diffF f (.cdict d1 d2) ∧
    (lookupKey d2 k = none →
      diffF f (.cdict d1 ((k, Val.prim .pnone) :: d2)) = diffF f (.cdict d1 d2)) ∧
    dict_diff [] [(k, Val.prim .pnone)] = .ok ([], false) := by
  have n1 : (lookupKey d1 k).getD (.prim .pnone) = .prim .pnone := by rw [h1]; rfl
  have n2 : (lookupKey d2 k).getD (.prim .pnone) = .prim .pnone := by
    rcases h2 with h | h <;> rw [h] <;> rfl
  refine ⟨?_, ?_, ?_⟩
  · cases f with
    | zero => rfl
    | succ f =>
      have n1' : (lookupKey ((k, Val.prim .pnone) :: d1) k).getD (.prim .pnone) =
          .prim .pnone := by simp [lookupKey]
      have hfilt : ∀ x ∈ (unionKeys ((k, Val.prim .pnone) :: d1) d2).filter
          (fun y => !(y == k)), lookupKey ((k, Val.prim .pnone) :: d1) x = lookupKey d1 x := by
        intro x hx
        have := List.of_mem_filter hx
        have hxk : k ≠ x := by
          intro hc; subst hc; simp at this
        exact lookupKey_cons_ne k x _ d1 hxk
      have htri : triageKeys (f + 1) ((k, Val.prim .pnone) :: d1) d2 ⟨[], [], []⟩
            (unionKeys ((k, Val.prim .pnone) :: d1) d2) =
          triageKeys (f + 1) d1 d2 ⟨[], [], []⟩ (unionKeys d1 d2) := by
        calc triageKeys (f + 1) ((k, Val.prim .pnone) :: d1) d2 ⟨[], [], []⟩
              (unionKeys ((k, Val.prim .pnone) :: d1) d2)
            = triageKeys (f + 1) ((k, Val.prim .pnone) :: d1) d2 ⟨[], [], []⟩
              ((unionKeys ((k, Val.prim .pnone) :: d1) d2).filter (fun y => !(y == k))) :=
              (triageKeys_skip_noop f _ d2 k n1' n2 _ ⟨[], [], []⟩).symm
          _ = triageKeys (f + 1) d1 d2 ⟨[], [], []⟩
              ((unionKeys ((k, Val.prim .pnone) :: d1) d2).filter (fun y => !(y == k))) :=
              triageKeys_congr (f + 1) d1 _ d2 d2 _ hfilt (fun x _ => rfl) ⟨[], [], []⟩
          _ = triageKeys (f + 1) d1 d2 ⟨[], [], []⟩
              ((unionKeys d1 d2).filter (fun y => !(y == k))) := by
              rw [filter_unionKeys_left]
          _ = triageKeys (f + 1) d1 d2 ⟨[], [], []⟩ (unionKeys d1 d2) :=
              triageKeys_skip_noop f d1 d2 k n1 n2 _ ⟨[], [], []⟩
      simp only [diffF]
      rw [htri]
      have hk := triageKeys_noop_not_mem f d1 d2 k n1 n2 (unionKeys d1 d2) ⟨[], [], []⟩
        (by simp) (by simp)
      refine (diffF_keysCongr f).1 d1 _ d2 d2 _ _ _ ?_ (fun x _ => rfl)
      intro x hx
      have hxk : k ≠ x := by
        intro hc
        subst hc
        rcases hx with hx | hx
        · exact hk.1 hx
        · exact hk.2 hx
      exact lookupKey_cons_ne k x _ d1 hxk
  · intro hB
    cases f with
    | zero => rfl
    | succ f =>
      have n2' : (lookupKey ((k, Val.prim .pnone) :: d2) k).getD (.prim .pnone) =
          .prim .pnone := by simp [lookupKey]
      have hfilt : ∀ x ∈ (unionKeys d1 ((k, Val.prim .pnone) :: d2)).filter
          (fun y => !(y == k)), lookupKey ((k, Val.prim .pnone) :: d2) x = lookupKey d2 x := by
        intro x hx
        have := List.of_mem_filter hx
        have hxk : k ≠ x := by
          intro hc; subst hc; simp at this
        exact lookupKey_cons_ne k x _ d2 hxk
      have htri : triageKeys (f + 1) d1 ((k, Val.prim .pnone) :: d2) ⟨[], [], []⟩
            (unionKeys d1 ((k, Val.prim .pnone) :: d2)) =
          triageKeys (f + 1) d1 d2 ⟨[], [], []⟩ (unionKeys d1 d2) := by
        calc triageKeys (f + 1) d1 ((k, Val.prim .pnone) :: d2) ⟨[], [], []⟩
              (unionKeys d1 ((k, Val.prim .pnone) :: d2))
            = triageKeys (f + 1) d1 ((k, Val.prim .pnone) :: d2) ⟨[], [], []⟩
              ((unionKeys d1 ((k, Val.prim .pnone) :: d2)).filter (fun y => !(y == k))) :=
              (triageKeys_skip_noop f d1 _ k n1 n2' _ ⟨[], [], []⟩).symm
          _ = triageKeys (f + 1) d1 d2 ⟨[], [], []⟩
              ((unionKeys d1 ((k, Val.prim .pnone) :: d2)).filter (fun y => !(y == k))) :=
              triageKeys_congr (f + 1) d1 d1 d2 _ _ (fun x _ => rfl) hfilt ⟨[], [], []⟩
          _ = triageKeys (f + 1) d1 d2 ⟨[], [], []⟩
              ((unionKeys d1 d2).filter (fun y => !(y == k))) := by
              rw [filter_unionKeys_right]
          _ = triageKeys (f + 1) d1 d2 ⟨[], [], []⟩ (unionKeys d1 d2) :=
              triageKeys_skip_noop f d1 d2 k n1 n2 _ ⟨[], [], []⟩
      simp only [diffF]
      rw [htri]
      have hk := triageKeys_noop_not_mem f d1 d2 k n1 n2 (unionKeys d1 d2) ⟨[], [], []⟩
        (by simp) (by simp)
      refine (diffF_keysCongr f).1 d1 d1 d2 _ _ _ _ (fun x _ => rfl) ?_
      intro x hx
      have hxk : k ≠ x := by
        intro hc
        subst hc
        rcases hx with hx | hx
        · exact hk.1 hx
        · exact hk.2 hx
      exact lookupKey_cons_ne k x _ d2 hxk
  · show diffF (psize [] + psize [(k, Val.prim .pnone)] + 3) (.cdict [] [(k, Val.prim .pnone)]) =
      .ok ([], false)
    have hfuel : psize [] + psize [(k, Val.prim .pnone)] + 3 = 5 := by
      simp [psize, vsize]
    rw [hfuel]
    simp [diffF, unionKeys, dedupKeysGo, triageKeys, lookupKey, pyEqF]

/-- Witness for C7 at `k` the string key "x" over two empty dicts. -/
theorem c7_witness :
    diffF 5 (.cdict [(Prim.pstr "x", Val.prim .pnone)] []) = diffF 5 (.cdict [] []) ∧
    dict_diff [] [(Prim.pstr "x", Val.prim .pnone)] = .ok ([], false) :=
  ⟨(c7_absent_equals_null 5 (Prim.pstr "x") [] [] rfl (Or.inl rfl)).1,
   (c7_absent_equals_null 5 (Prim.pstr "x") [] [] rfl (Or.inl rfl)).2.2⟩

theorem invToRec_append_pair (l1 l2 : List Val) (q : List (Nat × Nat)) (i j : Nat)
    (hinv : invToRec l1 l2 q = true)
    (hpair : shapePaired (l1.getD i (.prim .pnone)) (l2.getD j (.prim .pnone)) = true) :
    invToRec l1 l2 (q ++ [(i, j)]) = true := by
  rw [invToRec, List.all_append, Bool.and_eq_true]
  refine ⟨hinv, ?_⟩
  rw [List.all_cons, List.all_nil, Bool.and_true]
  exact hpair

theorem markMatch_inv (l1 l2 : List Val) (st st' : MatchState) (i j : Nat)
    (h : markMatch l1 l2 st i j = .ok st')
    (hinv : invToRec l1 l2 st.toRecurse = true) :
    invToRec l1 l2 st'.toRecurse = true := by
  rw [markMatch] at h
  split at h
  · split at h
    · split at h
      · split at h
        · cases h
          refine invToRec_append_pair l1 l2 st.toRecurse i j hinv ?_
          simp_all [shapePaired]
        · cases h
          exact hinv
      · cases h
    · split at h
      · split at h
        · cases h
          refine invToRec_append_pair l1 l2 st.toRecurse i j hinv ?_
          simp_all [shapePaired]
        · cases h
          exact hinv
      · cases h
    · cases h
      exact hinv
  · cases h

theorem stepEntry_inv (l1 l2 : List Val) (st st' : MatchState) (e : SimEntry)
    (h : stepEntry l1 l2 st e = .ok st')
    (hinv : invToRec l1 l2 st.toRecurse = true) :
    invToRec l1 l2 st'.toRecurse = true := by
  rw [stepEntry] at h
  split at h
  · exact markMatch_inv l1 l2 _ st' e.2.1 e.2.2 h hinv
  · split at h
    · cases h
      simpa [apply_ite MatchState.toRecurse] using hinv
    · cases h
      exact hinv

theorem stepLoop_inv (l1 l2 : List Val) (sl : List SimEntry) : ∀ st st' : MatchState,
    stepLoop l1 l2 st sl = .ok st' →
    invToRec l1 l2 st.toRecurse = true →
    invToRec l1 l2 st'.toRecurse = true := by
  induction sl with
  | nil =>
    intro st st' h hinv
    cases h
    exact hinv
  | cons e rest ih =>
    intro st st' h hinv
    rw [stepLoop] at h
    cases hse : stepEntry l1 l2 st e with
    | error err => rw [hse] at h; cases h
    | ok st2 =>
      rw [hse] at h
      exact ih st2 st' h (stepEntry_inv l1 l2 st st2 e hse hinv)

theorem diffF_no_warn : ∀ f : Nat,
    (∀ l1 l2 r, diffF f (.clist l1 l2) = .ok r → r.2 = false) ∧
    (∀ d1 d2 r, diffF f (.cdict d1 d2) = .ok r → r.2 = false) ∧
    (∀ l1 l2 ps pairs r, invToRec l1 l2 pairs = true →
      diffF f (.cpairs l1 l2 (ps, false) pairs) = .ok r → r.2 = false) ∧
    (∀ d1 d2 ps ks pend r, diffF f (.cdictKeys d1 d2 (ps, false) ks pend) = .ok r → r.2 = false) ∧
    (∀ d1 d2 ps ks r, diffF f (.clistKeys d1 d2 (ps, false) ks) = .ok r → r.2 = false) := by
  intro f
  induction f with
  | zero =>
    refine ⟨fun _ _ _ h => ?_, fun _ _ _ h => ?_, fun _ _ _ _ _ _ h => ?_,
      fun _ _ _ _ _ _ h => ?_, fun _ _ _ _ _ h => ?_⟩ <;> cases h
  | succ f ih =>
    refine ⟨?_, ?_, ?_, ?_, ?_⟩
    · intro l1 l2 r h
      simp only [diffF] at h
      cases hcm : create_similarity_matrix l1 l2 with
      | error e => simp [hcm] at h
      | ok sm =>
        simp only [hcm] at h
        cases hsl : stepLoop l1 l2 initState (sort_similarity_matrix sm) with
        | error e => simp [hsl] at h
        | ok st =>
          simp only [hsl] at h
          have hinv : invToRec l1 l2 st.toRecurse = true :=
            stepLoop_inv l1 l2 _ initState st hsl (by rfl)
          exact ih.2.2.1 l1 l2 _ st.toRecurse r hinv h
    · intro d1 d2 r h
      simp only [diffF] at h
      exact ih.2.2.2.1 _ _ _ _ _ r h
    · intro l1 l2 ps pairs r hinv h
      cases pairs with
      | nil =>
        simp only [diffF] at h
        cases h
        rfl
      | cons p rest =>
        cases p with
        | mk i j =>
          simp only [diffF] at h
          rw [invToRec, List.all_cons, Bool.and_eq_true] at hinv
          have hhead : shapePaired (l1.getD i (.prim .pnone)) (l2.getD j (.prim .pnone)) = true :=
            hinv.1
          have htail : invToRec l1 l2 rest = true := hinv.2
          rcases hx : l1.getD i (.prim .pnone) with p' | d | l <;>
            rcases hy : l2.getD j (.prim .pnone) with q' | e | m <;>
            simp only [hx, hy] at h hhead <;> simp [shapePaired] at hhead
          · cases hres : diffF f (.cdict d e) with
            | error err => simp [hres] at h
            | ok pw =>
              cases pw with
              | mk ps' w' =>
                simp only [hres] at h
                have hw' : w' = false := ih.2.1 d e (ps', w') hres
                subst hw'
                simp only [Bool.or_false] at h
                exact ih.2.2.1 l1 l2 _ rest r htail h
          · cases hres : diffF f (.clist l m) with
            | error err => simp [hres] at h
            | ok pw =>
              cases pw with
              | mk ps' w' =>
                simp only [hres] at h
                have hw' : w' = false := ih.1 l m (ps', w') hres
                subst hw'
                simp only [Bool.or_false] at h
                exact ih.2.2.1 l1 l2 _ rest r htail h
    · intro d1 d2 ps ks pend r h
      cases ks with
      | nil =>
        simp only [diffF] at h
        exact ih.2.2.2.2 _ _ _ _ r h
      | cons k rest =>
        simp only [diffF] at h
        cases hres : diffF f (.cdict (asDictEntries (lookupKey d1 k))
            (asDictEntries (lookupKey d2 k))) with
        | error err => simp [hres] at h
        | ok pw =>
          cases pw with
          | mk ps' w' =>
            simp only [hres] at h
            have hw' : w' = false := ih.2.1 _ _ (ps', w') hres
            subst hw'
            simp only [Bool.or_false] at h
            exact ih.2.2.2.1 d1 d2 _ rest pend r h
    · intro d1 d2 ps ks r h
      cases ks with
      | nil =>
        simp only [diffF] at h
        cases h
        rfl
      | cons k rest =>
        simp only [diffF] at h
        cases hres : diffF f (.clist (asListElems (lookupKey d1 k))
            (asListElems (lookupKey d2 k))) with
        | error err => simp [hres] at h
        | ok pw =>
          cases pw with
          | mk ps' w' =>
            simp only [hres] at h
            have hw' : w' = false := ih.1 _ _ (ps', w') hres
            subst hw'
            simp only [Bool.or_false] at h
            exact ih.2.2.2.2 d1 d2 _ rest r h

/-- C10: every pair that the step-3 loop of `list_diff` appends to the
`to_recurse` queue points at two elements of the same complex shape
(both dicts or both lists); consequently the mixed-shape fallback branch
of the step-5 loop is unreachable: on every normally returning run of
`list_diff` the diagnostic-print flag is false. -/
theorem c10_queue_shapes_match_and_fallback_unreachable
    (l1 l2 : List Val) (sl : List SimEntry) (st : MatchState) (r : List MPath × Bool)
    (hst : stepLoop l1 l2 initState sl = .ok st)
    (hr : list_diff l1 l2 = .ok r) :
    invToRec l1 l2 st.toRecurse = true ∧ r.2 = false :=
  ⟨stepLoop_inv l1 l2 sl initState st hst (by rfl),
   (diffF_no_warn (lsize l1 + lsize l2 + 3)).1 l1 l2 r hr⟩

/-- Witness for C10 on a run that really queues a recursion pair: two
singleton lists holding equal one-entry dicts. -/
theorem c10_witness :
    invToRec [Val.vdict [(Prim.pstr "a", Val.prim (.pint 1))]]
      [Val.vdict [(Prim.pstr "a", Val.prim (.pint 1))]]
      (MatchState.mk [0] [] [0] [] [] [(0, 0)]).toRecurse = true ∧
    (([], false) : List MPath × Bool).2 = false :=
  c10_queue_shapes_match_and_fallback_unreachable
    [Val.vdict [(Prim.pstr "a", Val.prim (.pint 1))]]
    [Val.vdict [(Prim.pstr "a", Val.prim (.pint 1))]]
    [(1, 0, 0)] (MatchState.mk [0] [] [0] [] [] [(0, 0)]) ([], false) rfl rfl

theorem dictTargets_empty (d : List (Prim × Val)) : dictTargets emptyBuckets d = [] := by
  induction d with
  | nil => rfl
  | cons kv t ih =>
    cases kv with
    | mk k v =>
      cases v <;> simp [dictTargets, bucketGet, emptyBuckets] <;> exact ih

theorem targets_empty (x : Val) : targets emptyBuckets x = [] := by
  cases x with
  | prim p => rfl
  | vdict d => exact dictTargets_empty d
  | vlist l => rfl

theorem scoreRows_no_targets (b : Buckets) (hb : ∀ x, targets b x = []) (s : List Val) :
    ∀ m i, scoreRows b m i s = .ok m := by
  induction s with
  | nil => intro m i; rfl
  | cons x t ih =>
    intro m i
    rw [scoreRows, hb x]
    exact ih m (i + 1)

theorem create_similarity_matrix_nil_right (s : List Val) :
    create_similarity_matrix s [] = .ok [] :=
  scoreRows_no_targets emptyBuckets targets_empty s [] 0

theorem create_similarity_matrix_nil_left (s : List Val) :
    create_similarity_matrix [] s = .ok (List.replicate s.length []) := rfl

theorem simEntriesGo_replicate_nil (n : Nat) : ∀ r, simEntriesGo r (List.replicate n []) = [] := by
  induction n with
  | zero => intro r; rfl
  | succ n ih =>
    intro r
    rw [List.replicate_succ, simEntriesGo]
    simp [rowEntries, ih (r + 1)]

theorem sort_similarity_matrix_replicate_nil (n : Nat) :
    sort_similarity_matrix (List.replicate n []) = [] := by
  rw [sort_similarity_matrix, simEntries, simEntriesGo_replicate_nil n 0]
  rfl

theorem addStragglers_fresh (mk : Nat → Option Nat × Option Nat)
    (hinj : ∀ i j, mk i = mk j → i = j) :
    ∀ (idxs : List Nat) (ms : List (Option Nat × Option Nat)),
      (∀ i ∈ idxs, ¬ mk i ∈ ms) → idxs.Nodup →
      addStragglers [] [] mk ms idxs = ms ++ idxs.map mk := by
  intro idxs
  induction idxs with
  | nil => intro ms _ _; simp [addStragglers]
  | cons i t ih =>
    intro ms hfresh hnd
    rw [addStragglers]
    have hstep : (if i ∈ ([] : List Nat) ∨ i ∈ ([] : List Nat) then ms
        else insertSet ms (mk i)) = ms ++ [mk i] := by
      rw [if_neg (by simp), insertSet, if_neg (hfresh i (by simp))]
    rw [hstep]
    have hfresh2 : ∀ x ∈ t, ¬ mk x ∈ ms ++ [mk i] := by
      intro x hx hmem
      rcases List.mem_append.mp hmem with hm | hm
      · exact hfresh x (by simp [hx]) hm
      · have hxi : x = i := hinj x i (by simpa using hm)
        subst hxi
        exact (List.nodup_cons.mp hnd).1 hx
    rw [ih (ms ++ [mk i]) hfresh2 (List.nodup_cons.mp hnd).2]
    simp

theorem diffF_clist_nil_left (f : Nat) (s : List Val) :
    diffF (f + 2) (.clist [] s) =
      .ok ((List.range s.length).map (fun i => [PathSeg.idx none (some i)]), false) := by
  show diffF ((f + 1) + 1) (.clist [] s) = _
  have h1 : create_similarity_matrix [] s = .ok (List.replicate s.length []) := rfl
  have h2 : sort_similarity_matrix (List.replicate s.length []) = [] :=
    sort_similarity_matrix_replicate_nil s.length
  have h3 : stepLoop [] s initState [] = .ok initState := rfl
  simp only [diffF, h1, h2, h3]
  simp only [diffF, initState, List.length_nil, List.range_zero, addStragglers]
  rw [addStragglers_fresh (fun i => ((none : Option Nat), some i))
    (fun i j h => by simpa using h) (List.range s.length) [] (by simp)
    (List.nodup_range s.length)]
  simp

theorem diffF_clist_nil_right (f : Nat) (s : List Val) :
    diffF (f + 2) (.clist s []) =
      .ok ((List.range s.length).map (fun i => [PathSeg.idx (some i) none]), false) := by
  show diffF ((f + 1) + 1) (.clist s []) = _
  have h1 : create_similarity_matrix s [] = .ok [] := create_similarity_matrix_nil_right s
  have h2 : sort_similarity_matrix [] = [] := rfl
  have h3 : stepLoop s [] initState [] = .ok initState := rfl
  simp only [diffF, h1, h2, h3]
  simp only [diffF, initState, List.length_nil, List.range_zero, addStragglers]
  rw [addStragglers_fresh (fun i => (some i, (none : Option Nat)))
    (fun i j h => by simpa using h) (List.range s.length) [] (by simp)
    (List.nodup_range s.length)]
  simp

/-- C9: diffing the empty sequence against a non-empty sequence `s`, in
either argument order, returns exactly one one-sided `IndexPair` path per
element of `s`; the step-3 loop processes no entries at all (the state
stays initial: no index seen, no pair matched) and the recursion queue is
empty, so no recursive comparison is performed. -/
theorem c9_empty_vs_nonempty (s : List Val) (h : s ≠ []) :
    list_diff [] s =
      .ok ((List.range s.length).map (fun i => [PathSeg.idx none (some i)]), false) ∧
    list_diff s [] =
      .ok ((List.range s.length).map (fun i => [PathSeg.idx (some i) none]), false) ∧
    stepLoop [] s initState (sort_similarity_matrix (List.replicate s.length [])) =
      .ok initState ∧
    stepLoop s [] initState (sort_similarity_matrix []) = .ok initState := by
  refine ⟨?_, ?_, ?_, ?_⟩
  · rw [list_diff]
    have hf : lsize ([] : List Val) + lsize s + 3 = (lsize s + 1) + 2 := by
      rw [show lsize ([] : List Val) = 0 from rfl]
      omega
    rw [hf]
    exact diffF_clist_nil_left (lsize s + 1) s
  · rw [list_diff]
    have hf : lsize s + lsize ([] : List Val) + 3 = (lsize s + 1) + 2 := by
      rw [show lsize ([] : List Val) = 0 from rfl]
    rw [hf]
    exact diffF_clist_nil_right (lsize s + 1) s
  · rw [sort_similarity_matrix_replicate_nil]
    rfl
  · rfl

/-- Witness for C9 at the singleton sequence `[7]`. -/
theorem c9_witness :
    list_diff [] [Val.prim (.pint 7)] = .ok ([[PathSeg.idx none (some 0)]], false) ∧
    list_diff [Val.prim (.pint 7)] [] = .ok ([[PathSeg.idx (some 0) none]], false) := by
  have h := c9_empty_vs_nonempty [Val.prim (.pint 7)] (by simp)
  exact ⟨by rw [h.1]; rfl, by rw [h.2.1]; rfl⟩

theorem mergeF_perm : ∀ f : Nat, ∀ l1 l2 : List SimEntry,
    l1.length + l2.length ≤ f → List.Perm (mergeF f l1 l2) (l1 ++ l2) := by
  intro f
  induction f with
  | zero =>
    intro l1 l2 hlen
    cases l1 with
    | cons a t => simp at hlen
    | nil =>
      cases l2 with
      | cons b t => simp at hlen
      | nil => rfl
  | succ f ih =>
    intro l1 l2 hlen
    cases l1 with
    | nil =>
      cases l2 with
      | nil => rfl
      | cons b t2 =>
        rw [mergeF]
        simpa using (ih [] t2 (by simp at hlen ⊢; omega)).cons b
    | cons a t1 =>
      cases l2 with
      | nil =>
        rw [mergeF]
        simpa using (ih t1 [] (by simp at hlen ⊢; omega)).cons a
      | cons b t2 =>
        rw [mergeF]
        by_cases hab : b.1 < a.1
        · rw [if_pos hab]
          exact ((ih t1 (b :: t2) (by simp at hlen ⊢; omega)).cons a : _)
        · rw [if_neg hab]
          have hp := (ih (a :: t1) t2 (by simp at hlen ⊢; omega)).cons b
          exact hp.trans List.perm_middle.symm

theorem mergeF_sorted : ∀ f : Nat, ∀ l1 l2 : List SimEntry,
    l1.length + l2.length ≤ f →
    List.Pairwise (fun a b : SimEntry => b.1 ≤ a.1) l1 →
    List.Pairwise (fun a b : SimEntry => b.1 ≤ a.1) l2 →
    List.Pairwise (fun a b : SimEntry => b.1 ≤ a.1) (mergeF f l1 l2) := by
  intro f
  induction f with
  | zero => intro l1 l2 _ _ _; exact List.Pairwise.nil
  | succ f ih =>
    intro l1 l2 hlen h1 h2
    cases l1 with
    | nil =>
      cases l2 with
      | nil => exact List.Pairwise.nil
      | cons b t2 =>
        rw [mergeF]
        refine List.pairwise_cons.mpr ⟨?_, ih [] t2 (by simp at hlen ⊢; omega)
          List.Pairwise.nil (List.pairwise_cons.mp h2).2⟩
        intro y hy
        have hmem : y ∈ [] ++ t2 :=
          (mergeF_perm f [] t2 (by simp at hlen ⊢; omega)).mem_iff.mp hy
        exact (List.pairwise_cons.mp h2).1 y (by simpa using hmem)
    | cons a t1 =>
      cases l2 with
      | nil =>
        rw [mergeF]
        refine List.pairwise_cons.mpr ⟨?_, ih t1 [] (by simp at hlen ⊢; omega)
          (List.pairwise_cons.mp h1).2 List.Pairwise.nil⟩
        intro y hy
        have hmem : y ∈ t1 ++ [] :=
          (mergeF_perm f t1 [] (by simp at hlen ⊢; omega)).mem_iff.mp hy
        exact (List.pairwise_cons.mp h1).1 y (by simpa using hmem)
      | cons b t2 =>
        rw [mergeF]
        by_cases hab : b.1 < a.1
        · rw [if_pos hab]
          refine List.pairwise_cons.mpr ⟨?_, ih t1 (b :: t2) (by simp at hlen ⊢; omega)
            (List.pairwise_cons.mp h1).2 h2⟩
          intro y hy
          have hmem : y ∈ t1 ++ b :: t2 :=
            (mergeF_perm f t1 (b :: t2) (by simp at hlen ⊢; omega)).mem_iff.mp hy
          rcases List.mem_append.mp hmem with hm | hm
          · exact (List.pairwise_cons.mp h1).1 y hm
          · rcases List.mem_cons.mp hm with hm | hm
            · subst hm; omega
            · have hyb : y.1 ≤ b.1 := (List.pairwise_cons.mp h2).1 y hm
              omega
        · rw [if_neg hab]
          refine List.pairwise_cons.mpr ⟨?_, ih (a :: t1) t2 (by simp at hlen ⊢; omega)
            h1 (List.pairwise_cons.mp h2).2⟩
          intro y hy
          have hmem : y ∈ (a :: t1) ++ t2 :=
            (mergeF_perm f (a :: t1) t2 (by simp at hlen ⊢; omega)).mem_iff.mp hy
          rcases List.mem_append.mp hmem with hm | hm
          · rcases List.mem_cons.mp hm with hm | hm
            · subst hm; omega
            · have hya : y.1 ≤ a.1 := (List.pairwise_cons.mp h1).1 y hm
              omega
          · exact (List.pairwise_cons.mp h2).1 y hm

theorem sortF_perm_sorted : ∀ f : Nat, ∀ sl : List SimEntry, sl.length ≤ f + 1 →
    List.Perm (sortF f sl) sl ∧ List.Pairwise (fun a b : SimEntry => b.1 ≤ a.1) (sortF f sl) := by
  intro f
  induction f with
  | zero =>
    intro sl hlen
    refine ⟨by rw [sortF], ?_⟩
    rw [sortF]
    cases sl with
    | nil => exact List.Pairwise.nil
    | cons a t =>
      cases t with
      | nil => simp
      | cons b t2 => simp at hlen
  | succ f ih =>
    intro sl hlen
    rw [sortF]
    by_cases hone : sl.length ≤ 1
    · rw [if_pos hone]
      refine ⟨List.Perm.refl sl, ?_⟩
      cases sl with
      | nil => exact List.Pairwise.nil
      | cons a t =>
        cases t with
        | nil => simp
        | cons b t2 => simp at hone
    · rw [if_neg hone]
      have hlt : (sl.take (sl.length / 2)).length = sl.length / 2 := by
        rw [List.length_take]
        omega
      have hld : (sl.drop (sl.length / 2)).length = sl.length - sl.length / 2 := by
        rw [List.length_drop]
      have hbt : (sl.take (sl.length / 2)).length ≤ f + 1 := by omega
      have hbd : (sl.drop (sl.length / 2)).length ≤ f + 1 := by omega
      obtain ⟨hp1, hs1⟩ := ih (sl.take (sl.length / 2)) hbt
      obtain ⟨hp2, hs2⟩ := ih (sl.drop (sl.length / 2)) hbd
      rw [mergeLists]
      have hfuel : (sortF f (sl.take (sl.length / 2))).length +
          (sortF f (sl.drop (sl.length / 2))).length ≤
          (sortF f (sl.take (sl.length / 2))).length +
          (sortF f (sl.drop (sl.length / 2))).length := le_refl _
      constructor
      · have hm := mergeF_perm _ _ _ hfuel
        have : List.Perm (sortF f (sl.take (sl.length / 2)) ++ sortF f (sl.drop (sl.length / 2))) sl := by
          have := (hp1.append hp2).trans (by rw [List.take_append_drop])
          exact this
        exact hm.trans this
      · exact mergeF_sorted _ _ _ hfuel hs1 hs2

/-- C3 counterexample: the claim says entries of equal score retain their
row-major order.  On the 2-by-2 all-ones matrix the merge (which takes
from the second half when scores are equal) returns the exact reverse of
the row-major enumeration. -/
theorem c3_counterexample_ties_reversed :
    sort_similarity_matrix [[1, 1], [1, 1]] = [(1, 1, 1), (1, 1, 0), (1, 0, 1), (1, 0, 0)] ∧
    sort_similarity_matrix [[1, 1], [1, 1]] ≠ simEntries [[1, 1], [1, 1]] :=
  ⟨rfl, by decide⟩

/-- C3 amended: the Similarity Ranking returns all n times m entries of
the score matrix (a permutation of the row-major enumeration) sorted by
score descending, and it is deterministic; but the merge sort is NOT
stable: on equal scores the merge pops from the second half first, so
equal-score entries do not retain row-major order (the 2-by-2 all-ties
matrix comes out exactly reversed). -/
theorem c3_amended_sorted_permutation (sm : ScoreMatrix) :
    List.Perm (sort_similarity_matrix sm) (simEntries sm) ∧
    List.Pairwise (fun a b : SimEntry => b.1 ≤ a.1) (sort_similarity_matrix sm) := by
  have h := sortF_perm_sorted (simEntries sm).length (simEntries sm) (by omega)
  exact ⟨h.1, h.2⟩

theorem getD_set_self {α : Type} (l : List α) : ∀ (i : Nat) (x d : α), i < l.length →
    (l.set i x).getD i d = x := by
  induction l with
  | nil => intro i x d h; simp at h
  | cons a t ih =>
    intro i x d h
    cases i with
    | zero => rfl
    | succ n =>
      rw [List.set_cons_succ, List.getD_cons_succ]
      exact ih n x d (by simpa using h)

theorem getD_set_other {α : Type} (l : List α) : ∀ (i r : Nat) (x d : α), i ≠ r →
    (l.set i x).getD r d = l.getD r d := by
  induction l with
  | nil => intro i r x d _; rfl
  | cons a t ih =>
    intro i r x d h
    cases i with
    | zero =>
      cases r with
      | zero => exact absurd rfl h
      | succ n => rfl
    | succ n =>
      cases r with
      | zero => rfl
      | succ p =>
        rw [List.set_cons_succ, List.getD_cons_succ, List.getD_cons_succ]
        exact ih n p x d (by omega)

theorem bump_facts (m : ScoreMatrix) (i j : Nat) (m' : ScoreMatrix)
    (h : bump m i j = .ok m') :
    m'.length = m.length ∧ (∀ r, (m'.getD r []).length = (m.getD r []).length) ∧
    (∀ r c, entryD m' r c = entryD m r c + (if i = r ∧ j = c then 1 else 0)) ∧
    i < m.length ∧ j < (m.getD i []).length := by
  rw [bump] at h
  by_cases hi : i < m.length
  · rw [if_pos hi] at h
    by_cases hj : j < (m.getD i []).length
    · rw [if_pos hj] at h
      cases h
      refine ⟨List.length_set m i _, ?_, ?_, hi, hj⟩
      · intro r
        by_cases hir : i = r
        · subst hir
          rw [getD_set_self m i _ [] hi, List.length_set]
        · rw [getD_set_other m i r _ [] hir]
      · intro r c
        by_cases hir : i = r
        · subst hir
          rw [entryD, entryD, getD_set_self m i _ [] hi]
          by_cases hjc : j = c
          · subst hjc
            rw [getD_set_self _ j _ 0 hj]
            simp
          · rw [getD_set_other _ j c _ 0 hjc]
            simp [hjc]
        · rw [entryD, entryD, getD_set_other m i r _ [] hir]
          simp [hir]
    · rw [if_neg hj] at h
      cases h
  · rw [if_neg hi] at h
    cases h

theorem bumps_facts (i : Nat) (js : List Nat) : ∀ m m' : ScoreMatrix,
    bumps m i js = .ok m' →
    (m'.length = m.length ∧ (∀ r, (m'.getD r []).length = (m.getD r []).length)) ∧
    (∀ r c, entryD m' r c = entryD m r c + (if i = r then js.count c else 0)) ∧
    (js ≠ [] → i < m.length) ∧ (∀ c ∈ js, c < (m.getD i []).length) := by
  induction js with
  | nil =>
    intro m m' h
    cases h
    refine ⟨⟨rfl, fun r => rfl⟩, ?_, fun hc => absurd rfl hc, by simp⟩
    intro r c
    simp
  | cons j t ih =>
    intro m m' h
    rw [bumps] at h
    cases hb : bump m i j with
    | error e => rw [hb] at h; cases h
    | ok m2 =>
      rw [hb] at h
      obtain ⟨hlen2, hrow2, hentry2, hi2, hj2⟩ := bump_facts m i j m2 hb
      obtain ⟨⟨hlen', hrow'⟩, hentry', hne', hmem'⟩ := ih m2 m' h
      refine ⟨⟨hlen'.trans hlen2, fun r => (hrow' r).trans (hrow2 r)⟩, ?_, fun _ => hi2, ?_⟩
      · intro r c
        rw [hentry' r c, hentry2 r c, List.count_cons]
        by_cases hir : i = r
        · subst hir
          by_cases hjc : j = c <;> simp [hjc] <;> omega
        · simp [hir]
      · intro c hc
        rcases List.mem_cons.mp hc with hc | hc
        · subst hc; exact hj2
        · have := hmem' c hc
          rw [hrow2 i] at this
          exact this

theorem scoreRows_facts (b : Buckets) (l : List Val) : ∀ (m : ScoreMatrix) (i0 : Nat)
    (m' : ScoreMatrix), scoreRows b m i0 l = .ok m' →
    (m'.length = m.length ∧ (∀ r, (m'.getD r []).length = (m.getD r []).length)) ∧
    (∀ r c, entryD m' r c =
      entryD m r c + occHits (fun x => (targets b x).count c) l i0 r) ∧
    (∀ r c, m.length ≤ r ∨ (m.getD r []).length ≤ c →
      occHits (fun x => (targets b x).count c) l i0 r = 0) := by
  induction l with
  | nil =>
    intro m i0 m' h
    cases h
    exact ⟨⟨rfl, fun r => rfl⟩, fun r c => by simp [occHits], fun r c _ => rfl⟩
  | cons x t ih =>
    intro m i0 m' h
    rw [scoreRows] at h
    cases hb : bumps m i0 (targets b x) with
    | error e => rw [hb] at h; cases h
    | ok m2 =>
      rw [hb] at h
      obtain ⟨⟨hlen2, hrow2⟩, hentry2, hne2, hmem2⟩ := bumps_facts i0 (targets b x) m m2 hb
      obtain ⟨⟨hlen', hrow'⟩, hentry', hoob'⟩ := ih m2 (i0 + 1) m' h
      refine ⟨⟨hlen'.trans hlen2, fun r => (hrow' r).trans (hrow2 r)⟩, ?_, ?_⟩
      · intro r c
        rw [hentry' r c, hentry2 r c, occHits]
        omega
      · intro r c hoob
        rw [occHits]
        have htail : occHits (fun x => (targets b x).count c) t (i0 + 1) r = 0 := by
          refine hoob' r c ?_
          rcases hoob with hoob | hoob
          · exact Or.inl (by rw [hlen2]; exact hoob)
          · exact Or.inr (by rw [hrow2 r]; exact hoob)
        rw [htail]
        by_cases hir : i0 = r
        · subst hir
          have hcz : (targets b x).count c = 0 := by
            rcases hoob with hoob | hoob
            · cases hts : targets b x with
              | nil => simp
              | cons c0 t0 =>
                have := hne2 (by simp [hts])
                omega
            · refine List.count_eq_zero.mpr ?_
              intro hcmem
              have := hmem2 c hcmem
              omega
          rw [hcz]
          simp
        · simp [hir]

theorem occHits_lt (occ : Val → Nat) (l : List Val) : ∀ i0 j, j < i0 →
    occHits occ l i0 j = 0 := by
  induction l with
  | nil => intro i0 j _; rfl
  | cons x t ih =>
    intro i0 j h
    rw [occHits]
    have hne : i0 ≠ j := by omega
    rw [if_neg hne, ih (i0 + 1) j (by omega)]

theorem occHits_add (occ : Val → Nat) (l : List Val) : ∀ i0 d,
    occHits occ l i0 (i0 + d) =
      if d < l.length then occ (l.getD d (.prim .pnone)) else 0 := by
  induction l with
  | nil => intro i0 d; simp [occHits]
  | cons x t ih =>
    intro i0 d
    rw [occHits]
    cases d with
    | zero =>
      rw [if_pos (by omega), if_pos (by simp)]
      rw [occHits_lt occ t (i0 + 1) (i0 + 0) (by omega)]
      simp [List.getD_cons_zero]
    | succ e =>
      rw [if_neg (by omega)]
      have : i0 + (e + 1) = (i0 + 1) + e := by omega
      rw [this, ih (i0 + 1) e]
      rw [List.getD_cons_succ]
      simp [Nat.succ_lt_succ_iff]

theorem occHits_zero_base (occ : Val → Nat) (l : List Val) (j : Nat) :
    occHits occ l 0 j = if j < l.length then occ (l.getD j (.prim .pnone)) else 0 := by
  have := occHits_add occ l 0 j
  simpa using this

theorem getD_replicate {α : Type} (x d : α) : ∀ (n r : Nat),
    (List.replicate n x).getD r d = if r < n then x else d := by
  intro n
  induction n with
  | zero => intro r; simp
  | succ n ih =>
    intro r
    rw [List.replicate_succ]
    cases r with
    | zero => simp
    | succ p =>
      rw [List.getD_cons_succ, ih p]
      simp [Nat.succ_lt_succ_iff]

theorem count_bucketGet_bucketAdd {κ : Type} [DecidableEq κ] (q q' : κ) (i j : Nat) :
    ∀ m : List (κ × List Nat),
    (bucketGet (bucketAdd m q i) q').count j =
      (bucketGet m q').count j + (if q = q' ∧ i = j then 1 else 0) := by
  intro m
  induction m with
  | nil =>
    by_cases h : q = q'
    · subst h
      simp [bucketAdd, bucketGet, List.count_cons]
    · simp [bucketAdd, bucketGet, h]
  | cons p t ih =>
    cases p with
    | mk k is =>
      by_cases hkq : k = q
      · subst hkq
        rw [bucketAdd, if_pos rfl]
        by_cases hkq' : k = q'
        · subst hkq'
          rw [bucketGet, if_pos rfl, bucketGet, if_pos rfl, List.count_append]
          simp [List.count_cons]
        · rw [bucketGet, if_neg hkq', bucketGet, if_neg hkq']
          simp [hkq']
      · rw [bucketAdd, if_neg hkq]
        by_cases hkq' : k = q'
        · subst hkq'
          rw [bucketGet, if_pos rfl, bucketGet, if_pos rfl]
          have hqq' : ¬ (q = k ∧ i = j) := fun hc => hkq hc.1.symm
          simp [hqq']
        · rw [bucketGet, if_neg hkq', bucketGet, if_neg hkq']
          exact ih

theorem parseDict_simpleValues (i : Nat) (d : List (Prim × Val)) : ∀ b : Buckets,
    (parseDict b i d).simpleValues = b.simpleValues := by
  induction d with
  | nil => intro b; rfl
  | cons kv t ih =>
    intro b
    cases kv with
    | mk k v => cases v <;> exact ih _

theorem parseDict_listLengths (i : Nat) (d : List (Prim × Val)) : ∀ b : Buckets,
    (parseDict b i d).listLengths = b.listLengths := by
  induction d with
  | nil => intro b; rfl
  | cons kv t ih =>
    intro b
    cases kv with
    | mk k v => cases v <;> exact ih _

theorem parseDict_kv_count (i j : Nat) (k p : Prim) (d : List (Prim × Val)) : ∀ b : Buckets,
    ((bucketGet (parseDict b i d).keyValuePairs (k, p)).count j) =
      (bucketGet b.keyValuePairs (k, p)).count j +
      (if i = j then d.countP (fun e => e.1 == k &&
          (match e.2 with | .prim q => q == p | _ => false)) else 0) := by
  induction d with
  | nil => intro b; simp [parseDict, List.countP_nil]
  | cons kv t ih =>
    intro b
    cases kv with
    | mk k' v =>
      cases v with
      | prim q =>
        have hstep : parseDict b i ((k', Val.prim q) :: t) =
          parseDict { b with keyValuePairs := bucketAdd b.keyValuePairs (k', q) i } i t := rfl
        rw [hstep, ih _]
        have hadd := count_bucketGet_bucketAdd (k', q) (k, p) i j b.keyValuePairs
        rw [show ({ b with keyValuePairs := bucketAdd b.keyValuePairs (k', q) i } :
          Buckets).keyValuePairs = bucketAdd b.keyValuePairs (k', q) i from rfl, hadd]
        rw [List.countP_cons]
        by_cases hkk : k' = k <;> by_cases hqp : q = p <;> by_cases hij : i = j <;>
          simp [hkk, hqp, hij, Prod.ext_iff] <;> omega
      | vdict d2 =>
        have hstep : parseDict b i ((k', Val.vdict d2) :: t) =
          parseDict { b with complexKeys := bucketAdd b.complexKeys k' i } i t := rfl
        rw [hstep, ih _]
        rw [List.countP_cons]
        simp
      | vlist s =>
        have hstep : parseDict b i ((k', Val.vlist s) :: t) =
          parseDict { b with complexKeys := bucketAdd b.complexKeys k' i } i t := rfl
        rw [hstep, ih _]
        rw [List.countP_cons]
        simp

theorem parseDict_cx_count (i j : Nat) (k : Prim) (d : List (Prim × Val)) : ∀ b : Buckets,
    ((bucketGet (parseDict b i d).complexKeys k).count j) =
      (bucketGet b.complexKeys k).count j +
      (if i = j then d.countP (fun e => e.1 == k &&
          (match e.2 with | .prim _ => false | _ => true)) else 0) := by
  induction d with
  | nil => intro b; simp [parseDict, List.countP_nil]
  | cons kv t ih =>
    intro b
    cases kv with
    | mk k' v =>
      cases v with
      | prim q =>
        have hstep : parseDict b i ((k', Val.prim q) :: t) =
          parseDict { b with keyValuePairs := bucketAdd b.keyValuePairs (k', q) i } i t := rfl
        rw [hstep, ih _]
        rw [List.countP_cons]
        simp
      | vdict d2 =>
        have hstep : parseDict b i ((k', Val.vdict d2) :: t) =
          parseDict { b with complexKeys := bucketAdd b.complexKeys k' i } i t := rfl
        rw [hstep, ih _]
        have hadd := count_bucketGet_bucketAdd k' k i j b.complexKeys
        rw [show ({ b with complexKeys := bucketAdd b.complexKeys k' i } :
          Buckets).complexKeys = bucketAdd b.complexKeys k' i from rfl, hadd]
        rw [List.countP_cons]
        by_cases hkk : k' = k <;> by_cases hij : i = j <;> simp [hkk, hij] <;> omega
      | vlist s =>
        have hstep : parseDict b i ((k', Val.vlist s) :: t) =
          parseDict { b with complexKeys := bucketAdd b.complexKeys k' i } i t := rfl
        rw [hstep, ih _]
        have hadd := count_bucketGet_bucketAdd k' k i j b.complexKeys
        rw [show ({ b with complexKeys := bucketAdd b.complexKeys k' i } :
          Buckets).complexKeys = bucketAdd b.complexKeys k' i from rfl, hadd]
        rw [List.countP_cons]
        by_cases hkk : k' = k <;> by_cases hij : i = j <;> simp [hkk, hij] <;> omega

theorem buildBuckets_sv_count (p : Prim) (j : Nat) (l : List Val) : ∀ (b : Buckets) (i0 : Nat),
    (bucketGet (buildBucketsGo b i0 l).simpleValues p).count j =
      (bucketGet b.simpleValues p).count j + occHits (fun x => primOccs x p) l i0 j := by
  induction l with
  | nil => intro b i0; simp [buildBucketsGo, occHits]
  | cons x t ih =>
    intro b i0
    rw [buildBucketsGo, ih _ _, occHits]
    cases x with
    | prim q =>
      have hadd := count_bucketGet_bucketAdd q p i0 j b.simpleValues
      rw [show (parseElem b i0 (Val.prim q)).simpleValues =
        bucketAdd b.simpleValues q i0 from rfl, hadd]
      by_cases hqp : q = p <;> by_cases hij : i0 = j <;>
        simp [hqp, hij, primOccs] <;> omega
    | vdict d =>
      rw [show (parseElem b i0 (Val.vdict d)).simpleValues =
        (parseDict b i0 d).simpleValues from rfl, parseDict_simpleValues i0 d b]
      simp [primOccs]
    | vlist s =>
      rw [show (parseElem b i0 (Val.vlist s)).simpleValues = b.simpleValues from rfl]
      simp [primOccs]

theorem buildBuckets_kv_count (k p : Prim) (j : Nat) (l : List Val) :
    ∀ (b : Buckets) (i0 : Nat),
    (bucketGet (buildBucketsGo b i0 l).keyValuePairs (k, p)).count j =
      (bucketGet b.keyValuePairs (k, p)).count j +
        occHits (fun x => kvOccs x k p) l i0 j := by
  induction l with
  | nil => intro b i0; simp [buildBucketsGo, occHits]
  | cons x t ih =>
    intro b i0
    rw [buildBucketsGo, ih _ _, occHits]
    cases x with
    | prim q =>
      rw [show (parseElem b i0 (Val.prim q)).keyValuePairs = b.keyValuePairs from rfl]
      simp [kvOccs]
    | vdict d =>
      rw [show (parseElem b i0 (Val.vdict d)).keyValuePairs =
        (parseDict b i0 d).keyValuePairs from rfl, parseDict_kv_count i0 j k p d b]
      have hocc : kvOccs (Val.vdict d) k p = d.countP (fun e => e.1 == k &&
          (match e.2 with | .prim q => q == p | _ => false)) := rfl
      rw [hocc]
      omega
    | vlist s =>
      rw [show (parseElem b i0 (Val.vlist s)).keyValuePairs = b.keyValuePairs from rfl]
      simp [kvOccs]

theorem buildBuckets_cx_count (k : Prim) (j : Nat) (l : List Val) :
    ∀ (b : Buckets) (i0 : Nat),
    (bucketGet (buildBucketsGo b i0 l).complexKeys k).count j =
      (bucketGet b.complexKeys k).count j +
        occHits (fun x => complexOccs x k) l i0 j := by
  induction l with
  | nil => intro b i0; simp [buildBucketsGo, occHits]
  | cons x t ih =>
    intro b i0
    rw [buildBucketsGo, ih _ _, occHits]
    cases x with
    | prim q =>
      rw [show (parseElem b i0 (Val.prim q)).complexKeys = b.complexKeys from rfl]
      simp [complexOccs]
    | vdict d =>
      rw [show (parseElem b i0 (Val.vdict d)).complexKeys =
        (parseDict b i0 d).complexKeys from rfl, parseDict_cx_count i0 j k d b]
      have hocc : complexOccs (Val.vdict d) k = d.countP (fun e => e.1 == k &&
          (match e.2 with | .prim _ => false | _ => true)) := rfl
      rw [hocc]
      omega
    | vlist s =>
      rw [show (parseElem b i0 (Val.vlist s)).complexKeys = b.complexKeys from rfl]
      simp [complexOccs]

theorem buildBuckets_len_count (n j : Nat) (l : List Val) : ∀ (b : Buckets) (i0 : Nat),
    (bucketGet (buildBucketsGo b i0 l).listLengths n).count j =
      (bucketGet b.listLengths n).count j + occHits (fun x => lenOccs x n) l i0 j := by
  induction l with
  | nil => intro b i0; simp [buildBucketsGo, occHits]
  | cons x t ih =>
    intro b i0
    rw [buildBucketsGo, ih _ _, occHits]
    cases x with
    | prim q =>
      rw [show (parseElem b i0 (Val.prim q)).listLengths = b.listLengths from rfl]
      simp [lenOccs]
    | vdict d =>
      rw [show (parseElem b i0 (Val.vdict d)).listLengths =
        (parseDict b i0 d).listLengths from rfl, parseDict_listLengths i0 d b]
      simp [lenOccs]
    | vlist s =>
      have hadd := count_bucketGet_bucketAdd s.length n i0 j b.listLengths
      rw [show (parseElem b i0 (Val.vlist s)).listLengths =
        bucketAdd b.listLengths s.length i0 from rfl, hadd]
      by_cases hsn : s.length = n <;> by_cases hij : i0 = j <;>
        simp [hsn, hij, lenOccs] <;> omega

theorem count_bucket_sv (l2 : List Val) (p : Prim) (j : Nat) (hj : j < l2.length) :
    (bucketGet (buildBuckets l2).simpleValues p).count j =
      primOccs (l2.getD j (.prim .pnone)) p := by
  rw [buildBuckets, buildBuckets_sv_count p j l2 emptyBuckets 0]
  rw [show (bucketGet emptyBuckets.simpleValues p).count j = 0 from rfl]
  rw [occHits_zero_base, if_pos hj]
  omega

theorem count_bucket_kv (l2 : List Val) (k p : Prim) (j : Nat) (hj : j < l2.length) :
    (bucketGet (buildBuckets l2).keyValuePairs (k, p)).count j =
      kvOccs (l2.getD j (.prim .pnone)) k p := by
  rw [buildBuckets, buildBuckets_kv_count k p j l2 emptyBuckets 0]
  rw [show (bucketGet emptyBuckets.keyValuePairs (k, p)).count j = 0 from rfl]
  rw [occHits_zero_base, if_pos hj]
  omega

theorem count_bucket_cx (l2 : List Val) (k : Prim) (j : Nat) (hj : j < l2.length) :
    (bucketGet (buildBuckets l2).complexKeys k).count j =
      complexOccs (l2.getD j (.prim .pnone)) k := by
  rw [buildBuckets, buildBuckets_cx_count k j l2 emptyBuckets 0]
  rw [show (bucketGet emptyBuckets.complexKeys k).count j = 0 from rfl]
  rw [occHits_zero_base, if_pos hj]
  omega

theorem count_bucket_len (l2 : List Val) (n j : Nat) (hj : j < l2.length) :
    (bucketGet (buildBuckets l2).listLengths n).count j =
      lenOccs (l2.getD j (.prim .pnone)) n := by
  rw [buildBuckets, buildBuckets_len_count n j l2 emptyBuckets 0]
  rw [show (bucketGet emptyBuckets.listLengths n).count j = 0 from rfl]
  rw [occHits_zero_base, if_pos hj]
  omega

theorem count_dictTargets (l2 : List Val) (j : Nat) (hj : j < l2.length) :
    ∀ d : List (Prim × Val),
    (dictTargets (buildBuckets l2) d).count j =
      dictPairScore (l2.getD j (.prim .pnone)) d := by
  intro d
  induction d with
  | nil => rfl
  | cons kv t ih =>
    cases kv with
    | mk k v =>
      cases v with
      | prim p =>
        rw [show dictTargets (buildBuckets l2) ((k, Val.prim p) :: t) =
          bucketGet (buildBuckets l2).keyValuePairs (k, p) ++
            dictTargets (buildBuckets l2) t from rfl]
        rw [List.count_append, ih, count_bucket_kv l2 k p j hj]
        rfl
      | vdict d2 =>
        rw [show dictTargets (buildBuckets l2) ((k, Val.vdict d2) :: t) =
          bucketGet (buildBuckets l2).complexKeys k ++
            dictTargets (buildBuckets l2) t from rfl]
        rw [List.count_append, ih, count_bucket_cx l2 k j hj]
        rfl
      | vlist s =>
        rw [show dictTargets (buildBuckets l2) ((k, Val.vlist s) :: t) =
          bucketGet (buildBuckets l2).complexKeys k ++
            dictTargets (buildBuckets l2) t from rfl]
        rw [List.count_append, ih, count_bucket_cx l2 k j hj]
        rfl

theorem count_targets (l2 : List Val) (x : Val) (j : Nat) (hj : j < l2.length) :
    (targets (buildBuckets l2) x).count j = pairScore x (l2.getD j (.prim .pnone)) := by
  cases x with
  | prim p => exact count_bucket_sv l2 p j hj
  | vdict d => exact count_dictTargets l2 j hj d
  | vlist s => exact count_bucket_len l2 s.length j hj

theorem create_similarity_matrix_entry (l1 l2 : List Val) (m : ScoreMatrix)
    (h : create_similarity_matrix l1 l2 = .ok m) (i j : Nat)
    (hi : i < l1.length) (hj : j < l2.length) :
    entryD m i j = pairScore (l1.getD i (.prim .pnone)) (l2.getD j (.prim .pnone)) := by
  rw [create_similarity_matrix] at h
  obtain ⟨⟨hlen, hrow⟩, hentry, hoob⟩ := scoreRows_facts (buildBuckets l2) l1 _ 0 m h
  have hm0entry : ∀ r c,
      entryD (List.replicate l2.length (List.replicate l1.length 0)) r c = 0 := by
    intro r c
    rw [entryD, getD_replicate]
    by_cases hr : r < l2.length
    · rw [if_pos hr, getD_replicate]
      by_cases hc : c < l1.length
      · rw [if_pos hc]
      · rw [if_neg hc]
    · rw [if_neg hr]
      rfl
  have hocc : occHits (fun x => (targets (buildBuckets l2) x).count j) l1 0 i =
      (targets (buildBuckets l2) (l1.getD i (.prim .pnone))).count j := by
    rw [occHits_zero_base, if_pos hi]
  have hcount := count_targets l2 (l1.getD i (.prim .pnone)) j hj
  by_cases hib : i < l2.length ∧ j < l1.length
  · rw [hentry i j, hm0entry i j, hocc, hcount]
    omega
  · have hor : (List.replicate l2.length (List.replicate l1.length 0)).length ≤ i ∨
        ((List.replicate l2.length (List.replicate l1.length 0)).getD i []).length ≤ j := by
      rw [List.length_replicate, getD_replicate]
      by_cases hil : i < l2.length
      · rw [if_pos hil, List.length_replicate]
        omega
      · exact Or.inl (by omega)
    have hzero := hoob i j hor
    rw [hocc, hcount] at hzero
    rw [hentry i j, hm0entry i j, hocc, hcount, hzero]

theorem dictPairScore_prim (q : Prim) : ∀ d, dictPairScore (Val.prim q) d = 0 := by
  intro d
  induction d with
  | nil => rfl
  | cons kv t ih =>
    cases kv with
    | mk k v =>
      cases v with
      | prim p =>
        rw [show dictPairScore (Val.prim q) ((k, Val.prim p) :: t) =
          kvOccs (Val.prim q) k p + dictPairScore (Val.prim q) t from rfl, ih]
        rfl
      | vdict d2 =>
        rw [show dictPairScore (Val.prim q) ((k, Val.vdict d2) :: t) =
          complexOccs (Val.prim q) k + dictPairScore (Val.prim q) t from rfl, ih]
        rfl
      | vlist s =>
        rw [show dictPairScore (Val.prim q) ((k, Val.vlist s) :: t) =
          complexOccs (Val.prim q) k + dictPairScore (Val.prim q) t from rfl, ih]
        rfl

theorem dictPairScore_vlist (s : List Val) : ∀ d, dictPairScore (Val.vlist s) d = 0 := by
  intro d
  induction d with
  | nil => rfl
  | cons kv t ih =>
    cases kv with
    | mk k v =>
      cases v with
      | prim p =>
        rw [show dictPairScore (Val.vlist s) ((k, Val.prim p) :: t) =
          kvOccs (Val.vlist s) k p + dictPairScore (Val.vlist s) t from rfl, ih]
        rfl
      | vdict d2 =>
        rw [show dictPairScore (Val.vlist s) ((k, Val.vdict d2) :: t) =
          complexOccs (Val.vlist s) k + dictPairScore (Val.vlist s) t from rfl, ih]
        rfl
      | vlist s2 =>
        rw [show dictPairScore (Val.vlist s) ((k, Val.vlist s2) :: t) =
          complexOccs (Val.vlist s) k + dictPairScore (Val.vlist s) t from rfl, ih]
        rfl

/-- C8: in every similarity matrix the scorer returns, a pair of two
scalar elements scores exactly 1 when the scalars are equal and exactly
0 otherwise, and every pair whose elements have different shapes scores
exactly 0.  The entry for the pair `(l1[i], l2[j])` is `entryD m i j`
(the cell the code writes for that pair; out-of-bounds cells read 0). -/
theorem c8_scalar_and_mixed_shape_scores (l1 l2 : List Val) (m : ScoreMatrix) (i j : Nat)
    (h : create_similarity_matrix l1 l2 = .ok m) (hi : i < l1.length) (hj : j < l2.length) :
    (∀ a b : Prim, l1.getD i (.prim .pnone) = .prim a → l2.getD j (.prim .pnone) = .prim b →
      entryD m i j = if a = b then 1 else 0) ∧
    (sameShape (l1.getD i (.prim .pnone)) (l2.getD j (.prim .pnone)) = false →
      entryD m i j = 0) := by
  have hch := create_similarity_matrix_entry l1 l2 m h i j hi hj
  constructor
  · intro a b hx hy
    rw [hch, hx, hy]
    by_cases hab : a = b
    · subst hab
      simp [pairScore, primOccs]
    · have hba : ¬ b = a := fun hc => hab hc.symm
      simp [pairScore, primOccs, hab, hba]
  · intro hshape
    rw [hch]
    rcases hx : l1.getD i (.prim .pnone) with p | d | s <;>
      rcases hy : l2.getD j (.prim .pnone) with q | e | s2 <;>
      rw [hx, hy] at hshape <;> simp [sameShape] at hshape
    · rfl
    · rfl
    · exact dictPairScore_prim q d
    · exact dictPairScore_vlist s2 d
    · rfl
    · rfl

/-- Witness for C8: equal scalars score 1 (pair (1, 1)), and a scalar
against a dict scores 0. -/
theorem c8_witness :
    (entryD [[1]] 0 0 = if Prim.pint 1 = Prim.pint 1 then 1 else 0) ∧
    entryD [[0]] 0 0 = 0 :=
  ⟨(c8_scalar_and_mixed_shape_scores [Val.prim (.pint 1)] [Val.prim (.pint 1)]
      [[1]] 0 0 rfl (by decide) (by decide)).1 (.pint 1) (.pint 1) rfl rfl,
   (c8_scalar_and_mixed_shape_scores [Val.prim (.pint 1)] [Val.vdict []]
      [[0]] 0 0 rfl (by decide) (by decide)).2 rfl⟩
